import Mathlib

/-!
Shallow embedding of the paged memory allocation simulator
(source: src/paged_memory.cpp, class PagedMemoryManager) and proofs of the
specification claims about it.

Modelling conventions:
* C++ `int` values (job ids, sizes, page numbers, addresses) are modelled as
  `Int`; every division and remainder in the source is taken on nonnegative
  operands, where C++ truncated division agrees with Lean's `Int` division.
* Physical frame indices are modelled as `Nat` since they index the frame
  vector (they are created as `0 .. totalFrames-1` and only ever copied).
* `std::map<int,int> pageTable` is modelled as an association list with
  unique keys; `mapInsert`/`mapFind`/`mapErase` mirror `operator[]=`,
  `find`, and `erase`.
* The call `shuffle(availableFrames, mt19937(random_device()))` is the one
  nondeterministic step; it is modelled by passing the shuffled free-frame
  list (for a single call) or a shuffling oracle `g` (for whole runs) as an
  explicit parameter, constrained to be a permutation of its input.
* The `cout` diagnostics are dropped; the distinct error exits of each
  member function are modelled as distinct error values, and the values the
  source prints on success (pages allocated, fragmentation, freed counts,
  translation steps) are returned in a success record.
-/

namespace PagedSim

/-- Job record: `struct Job` of the source. -/
structure Job where
  id : Int
  name : String
  size : Int
  pages : List Int
deriving Repr, DecidableEq

/-- Logical page record: `struct Page` of the source. -/
structure Page where
  pageNumber : Int
  frameNumber : Nat
  isValid : Bool
  jobId : Int
  offset : Int
deriving Repr, DecidableEq

/-- Physical frame record: `struct PageFrame` of the source. -/
structure PageFrame where
  frameNumber : Nat
  isOccupied : Bool
  jobId : Int
  pageNumber : Int
  size : Int
deriving Repr, DecidableEq

/-- The manager state: the private fields of `class PagedMemoryManager`. -/
structure MMState where
  pageSize : Int
  totalFrames : Int
  frames : List PageFrame
  pages : List Page
  jobs : List Job
  pageTable : List (Int × Nat)
  nextJobId : Int
  nextPageNumber : Int
deriving Repr, DecidableEq

/-- Default frame used for out-of-range reads (never hit on valid states). -/
def dfltFrame : PageFrame := { frameNumber := 0, isOccupied := false, jobId := -1, pageNumber := -1, size := 0 }

/-- Read of `frames[i]`. -/
def frameAtL (l : List PageFrame) (i : Nat) : PageFrame := l.getD i dfltFrame

/-- Keys of the page table (the mapped page numbers). -/
def tableKeys (t : List (Int × Nat)) : List Int := t.map Prod.fst

/-- Values of the page table (the frames holding mapped pages). -/
def tableVals (t : List (Int × Nat)) : List Nat := t.map Prod.snd

/-- `pageTable.find(k)` of the source. -/
def mapFind (t : List (Int × Nat)) (k : Int) : Option Nat :=
  (t.find? (fun e => e.1 == k)).map Prod.snd

/-- `pageTable[k] = v` of the source (insert or overwrite). -/
def mapInsert (t : List (Int × Nat)) (k : Int) (v : Nat) : List (Int × Nat) :=
  if (t.find? (fun e => e.1 == k)).isSome then
    t.map (fun e => if e.1 == k then (k, v) else e)
  else
    t ++ [(k, v)]

/-- `pageTable.erase(it)` of the source, with `it` the entry for key `k`. -/
def mapErase (t : List (Int × Nat)) (k : Int) : List (Int × Nat) :=
  t.filter (fun e => !(e.1 == k))

/-- Write of `frames[f].isOccupied = true; frames[f].jobId = jid; frames[f].pageNumber = pn`. -/
def setOcc (l : List PageFrame) (f : Nat) (jid pn : Int) : List PageFrame :=
  l.set f { frameAtL l f with isOccupied := true, jobId := jid, pageNumber := pn }

/-- Write of `frames[f].isOccupied = false; frames[f].jobId = -1; frames[f].pageNumber = -1`. -/
def clearOcc (l : List PageFrame) (f : Nat) : List PageFrame :=
  l.set f { frameAtL l f with isOccupied := false, jobId := -1, pageNumber := -1 }

/-- The constructor body: `totalFrames` frames, all free, numbered `0..`. -/
def initState (pageSize totalFrames : Int) : MMState :=
  { pageSize := pageSize
    totalFrames := totalFrames
    frames := (List.range totalFrames.toNat).map
      (fun i => { frameNumber := i, isOccupied := false, jobId := -1, pageNumber := -1, size := pageSize })
    pages := []
    jobs := []
    pageTable := []
    nextJobId := 1
    nextPageNumber := 1 }

/-- `PagedMemoryManager(pageSize, totalFrames)`: throws on non-positive arguments. -/
def initManager (pageSize totalFrames : Int) : Option MMState :=
  if pageSize ≤ 0 ∨ totalFrames ≤ 0 then none else some (initState pageSize totalFrames)

/-- `MAX_JOB_SIZE = 100 * 1024 * 1024` of `acceptJob`. -/
def MAX_JOB_SIZE : Int := 100 * 1024 * 1024

/-- The free-frame count loop of `acceptJob` (`for (frame : frames) if (!frame.isOccupied) freeFrames++`). -/
def freeFrameCount (s : MMState) : Nat := s.frames.countP (fun fr => !fr.isOccupied)

/-- The `availableFrames` collection loop of `acceptJob`
(`for i in 0..totalFrames-1, if (!frames[i].isOccupied) push_back(i)`). -/
def availableFrames (s : MMState) : List Nat :=
  (List.range s.totalFrames.toNat).filter
    (fun i => ((s.frames[i]?).map (fun fr => !fr.isOccupied)).getD false)

/-- Accumulator for the page-allocation loop of `acceptJob`: the mutable
state the loop touches (`pages`, `frames`, `pageTable`, `newJob.pages`,
`nextPageNumber`). -/
structure AllocAcc where
  pages : List Page
  frames : List PageFrame
  pageTable : List (Int × Nat)
  jobPages : List Int
  nextPageNumber : Int
deriving Repr, DecidableEq

/-- The allocation loop of `acceptJob`: for the i-th selected frame `f`,
create a page numbered `nextPageNumber++` with offset `i * pageSize`, mark
the frame occupied, and insert the page-table entry. -/
def allocPages (pageSize jid : Int) : List Nat → Int → AllocAcc → AllocAcc
  | [], _, acc => acc
  | f :: rest, i, acc =>
    allocPages pageSize jid rest (i + 1)
      { pages := acc.pages ++
          [{ pageNumber := acc.nextPageNumber, frameNumber := f, isValid := true,
             jobId := jid, offset := i * pageSize }]
        frames := setOcc acc.frames f jid acc.nextPageNumber
        pageTable := mapInsert acc.pageTable acc.nextPageNumber f
        jobPages := acc.jobPages ++ [acc.nextPageNumber]
        nextPageNumber := acc.nextPageNumber + 1 }

/-- Errors of `acceptJob` (its two distinct `return false` diagnostics). -/
inductive AcceptError where
  | invalidArgument
  | insufficientFrames
deriving Repr, DecidableEq

/-- The values `acceptJob` reports on success. -/
structure AcceptOk where
  jobId : Int
  pagesAllocated : Int
  fragmentationBytes : Int
  pageNumbers : List Int
deriving Repr, DecidableEq

/-- The state piece the allocation loop of `acceptJob` starts from: the
mutable fields as the loop first sees them, with an empty `newJob.pages`. -/
def startAcc (s : MMState) : AllocAcc :=
  { pages := s.pages, frames := s.frames, pageTable := s.pageTable,
    jobPages := [], nextPageNumber := s.nextPageNumber }

/-- `pagesNeeded` of `acceptJob`: the ceiling division the source computes
as `(jobSize + pageSize - 1) / pageSize`. -/
def pagesNeededFor (s : MMState) (jobSize : Int) : Int :=
  (jobSize + s.pageSize - 1) / s.pageSize

/-- `internalFragmentation` of `acceptJob`. -/
def fragmentationFor (s : MMState) (jobSize : Int) : Int :=
  if jobSize % s.pageSize != 0 then s.pageSize - jobSize % s.pageSize else 0

/-- The allocation-loop result of a successful `acceptJob`: the loop runs
over the first `pagesNeeded` entries of the shuffled free-frame list. -/
def acceptAcc (s : MMState) (jobSize : Int) (shuffled : List Nat) : AllocAcc :=
  allocPages s.pageSize s.nextJobId (shuffled.take (pagesNeededFor s jobSize).toNat) 0 (startAcc s)

/-- The state after a successful `acceptJob`: the loop's result fields plus
the new job record appended to `jobs` and the bumped id counters. -/
def acceptState (s : MMState) (jobName : String) (jobSize : Int) (shuffled : List Nat) : MMState :=
  { s with
    pages := (acceptAcc s jobSize shuffled).pages
    frames := (acceptAcc s jobSize shuffled).frames
    pageTable := (acceptAcc s jobSize shuffled).pageTable
    jobs := s.jobs ++ [{ id := s.nextJobId, name := jobName, size := jobSize,
                         pages := (acceptAcc s jobSize shuffled).jobPages }]
    nextJobId := s.nextJobId + 1
    nextPageNumber := (acceptAcc s jobSize shuffled).nextPageNumber }

/-- `acceptJob(jobName, jobSize)`. The parameter `shuffled` stands for the
shuffled `availableFrames` vector produced by `shuffle(...)`; the loop reads
its first `pagesNeeded` entries. -/
def acceptJob (s : MMState) (jobName : String) (jobSize : Int) (shuffled : List Nat) :
    MMState × Except AcceptError AcceptOk :=
  if jobSize ≤ 0 then (s, .error .invalidArgument)
  else if MAX_JOB_SIZE < jobSize then (s, .error .invalidArgument)
  else if (freeFrameCount s : Int) < pagesNeededFor s jobSize then (s, .error .insufficientFrames)
  else
    (acceptState s jobName jobSize shuffled,
     .ok { jobId := s.nextJobId
           pagesAllocated := pagesNeededFor s jobSize
           fragmentationBytes := fragmentationFor s jobSize
           pageNumbers := (acceptAcc s jobSize shuffled).jobPages })

/-- Errors of `resolveAddress` (its distinct `return false` diagnostics). -/
inductive ResolveError where
  | invalidArgument
  | notFound
  | outOfBounds
  | inconsistency
deriving Repr, DecidableEq

/-- The intermediate values `resolveAddress` reports on success. -/
structure ResolveOk where
  pageNumber : Int
  offset : Int
  actualPageNumber : Int
  frameNumber : Nat
  physicalAddress : Int
deriving Repr, DecidableEq

/-- `resolveAddress(jobId, logicalAddress)`. -/
def resolveAddress (s : MMState) (jobId logicalAddress : Int) :
    MMState × Except ResolveError ResolveOk :=
  if logicalAddress < 0 then (s, .error .invalidArgument)
  else
    match s.jobs.find? (fun j => j.id == jobId) with
    | none => (s, .error .notFound)
    | some job =>
      if job.size ≤ logicalAddress then (s, .error .outOfBounds)
      else if (job.pages.length : Int) ≤ logicalAddress / s.pageSize then (s, .error .outOfBounds)
      else
        match mapFind s.pageTable (job.pages.getD (logicalAddress / s.pageSize).toNat 0) with
        | none => (s, .error .inconsistency)
        | some frameNumber =>
          (s, .ok { pageNumber := logicalAddress / s.pageSize
                    offset := logicalAddress % s.pageSize
                    actualPageNumber := job.pages.getD (logicalAddress / s.pageSize).toNat 0
                    frameNumber := frameNumber
                    physicalAddress := (frameNumber : Int) * s.pageSize + logicalAddress % s.pageSize })

/-- Errors of `removeJob` (its two distinct `return false` diagnostics). -/
inductive RemoveError where
  | invalidArgument
  | notFound
deriving Repr, DecidableEq

/-- Accumulator for the frame-freeing loop of `removeJob`. The `freed`
field counts the iterations that actually found a page-table entry and
cleared a frame. -/
structure FreeAcc where
  frames : List PageFrame
  pageTable : List (Int × Nat)
  freed : Nat
deriving Repr, DecidableEq

/-- The frame-freeing loop of `removeJob`: for each page number of the job,
look it up in the page table; if present, clear the frame and erase the
entry. -/
def freeLoop : List Int → FreeAcc → FreeAcc
  | [], acc => acc
  | pn :: rest, acc =>
    match mapFind acc.pageTable pn with
    | none => freeLoop rest acc
    | some f =>
      freeLoop rest
        { frames := clearOcc acc.frames f
          pageTable := mapErase acc.pageTable pn
          freed := acc.freed + 1 }

/-- The state after a successful `removeJob` of `job`: the freeing loop's
frames and page table, the page records of the job dropped, and the job
record erased. -/
def removeState (s : MMState) (jobId : Int) (job : Job) : MMState :=
  { s with
    frames := (freeLoop job.pages { frames := s.frames, pageTable := s.pageTable, freed := 0 }).frames
    pageTable := (freeLoop job.pages { frames := s.frames, pageTable := s.pageTable, freed := 0 }).pageTable
    pages := s.pages.filter (fun p => !(p.jobId == jobId))
    jobs := s.jobs.eraseP (fun j => j.id == jobId) }

/-- `removeJob(jobId)`. On success the reported frames-freed count is
`job.pages.size()` (the number the source prints in
`Freed N pages and N frames`). -/
def removeJob (s : MMState) (jobId : Int) : MMState × Except RemoveError Nat :=
  if jobId ≤ 0 then (s, .error .invalidArgument)
  else
    match s.jobs.find? (fun j => j.id == jobId) with
    | none => (s, .error .notFound)
    | some job => (removeState s jobId job, .ok job.pages.length)

/-- The number of frames `removeJob(jobId)` actually clears when removing
`job`: the final value of the `freed` counter of the freeing loop. -/
def actualFramesFreed (s : MMState) (job : Job) : Nat :=
  (freeLoop job.pages { frames := s.frames, pageTable := s.pageTable, freed := 0 }).freed

/-- One user operation of a session (claims about call sequences quantify
over lists of these). -/
inductive Op where
  | accept (name : String) (size : Int)
  | remove (jobId : Int)

/-- Execute one operation, feeding `acceptJob` the shuffled free-frame list
produced by the shuffling oracle `g` (the model of `mt19937` + `shuffle`). -/
def stepOp (g : List Nat → List Nat) (s : MMState) : Op → MMState
  | .accept name size => (acceptJob s name size (g (availableFrames s))).1
  | .remove jobId => (removeJob s jobId).1

/-- Execute a sequence of operations. -/
def runOps (g : List Nat → List Nat) : MMState → List Op → MMState
  | s, [] => s
  | s, op :: ops => runOps g (stepOp g s op) ops

/-- The job ids assigned by one operation (one id for a successful accept,
none otherwise). -/
def opJobIds (g : List Nat → List Nat) (s : MMState) : Op → List Int
  | .accept name size =>
    match (acceptJob s name size (g (availableFrames s))).2 with
    | .ok r => [r.jobId]
    | .error _ => []
  | .remove _ => []

/-- The page numbers assigned by one operation. -/
def opPageNumbers (g : List Nat → List Nat) (s : MMState) : Op → List Int
  | .accept name size =>
    match (acceptJob s name size (g (availableFrames s))).2 with
    | .ok r => r.pageNumbers
    | .error _ => []
  | .remove _ => []

/-- All job ids assigned during a run, in order of assignment. -/
def assignedJobIds (g : List Nat → List Nat) : MMState → List Op → List Int
  | _, [] => []
  | s, op :: ops => opJobIds g s op ++ assignedJobIds g (stepOp g s op) ops

/-- All page numbers assigned during a run, in order of assignment. -/
def assignedPageNumbers (g : List Nat → List Nat) : MMState → List Op → List Int
  | _, [] => []
  | s, op :: ops => opPageNumbers g s op ++ assignedPageNumbers g (stepOp g s op) ops

/-- The live pages: the page numbers of all currently resident jobs. -/
def livePages (s : MMState) : List Int := (s.jobs.map Job.pages).flatten

/-- Well-formedness of a manager state. Everything listed here holds for
the initial state and is preserved by every operation; it packages the
spec's structural invariants together with the bookkeeping facts needed to
re-establish them after each call. -/
abbrev WF (s : MMState) : Prop :=
  0 < s.pageSize ∧
  (s.frames.length : Int) = s.totalFrames ∧
  (∀ i ∈ List.range s.frames.length, (frameAtL s.frames i).frameNumber = i) ∧
  (tableKeys s.pageTable).Nodup ∧
  (tableVals s.pageTable).Nodup ∧
  (∀ e ∈ s.pageTable, e.2 < s.frames.length ∧
      (frameAtL s.frames e.2).isOccupied = true ∧ (frameAtL s.frames e.2).pageNumber = e.1) ∧
  (∀ i ∈ List.range s.frames.length, (frameAtL s.frames i).isOccupied = true →
      ((frameAtL s.frames i).pageNumber, i) ∈ s.pageTable) ∧
  (∀ pn ∈ livePages s, pn ∈ tableKeys s.pageTable) ∧
  (∀ pn ∈ tableKeys s.pageTable, pn ∈ livePages s) ∧
  (livePages s).Nodup ∧
  (s.jobs.map Job.id).Nodup ∧
  (∀ j ∈ s.jobs, 0 < j.id ∧ j.id < s.nextJobId ∧ 0 < j.size ∧
      (j.pages.length : Int) = (j.size + s.pageSize - 1) / s.pageSize) ∧
  (∀ pn ∈ livePages s, pn < s.nextPageNumber) ∧
  0 < s.nextJobId

/-- The conclusion of the invariant claim: occupied frames and live pages
correspond one-to-one through the page table, and the occupied-frame count
is the sum of the jobs' page counts. -/
def InvariantOk (s : MMState) : Prop :=
  (∀ pn ∈ livePages s, ∃ f, mapFind s.pageTable pn = some f ∧
      f < s.frames.length ∧ (frameAtL s.frames f).isOccupied = true) ∧
  (∀ pn1 ∈ livePages s, ∀ pn2 ∈ livePages s, pn1 ≠ pn2 →
      mapFind s.pageTable pn1 ≠ mapFind s.pageTable pn2) ∧
  (∀ i ∈ List.range s.frames.length, (frameAtL s.frames i).isOccupied = true →
      ∃ pn ∈ livePages s, mapFind s.pageTable pn = some i) ∧
  s.frames.countP (fun fr => fr.isOccupied) = ((s.jobs.map (fun j => j.pages.length)).sum)

/-- The page numbers handed out by one allocation loop starting at `n`:
`n, n+1, ..., n+k-1`. -/
def pnList (n : Int) (k : Nat) : List Int := (List.range k).map (fun j : Nat => n + (j : Int))

/-- The page-table entries created by one allocation loop starting at `n`
over the selected frames. -/
def newEntries (n : Int) : List (Nat) → List (Int × Nat)
  | [] => []
  | f :: rest => (n, f) :: newEntries (n + 1) rest

/-- A small concrete session start (`pageSize = 1024`, four frames), used
to evaluate the theorems below on concrete inputs. -/
def sampleState0 : MMState := initState 1024 4

/-- The sample state after accepting a 2048-byte job whose pages land on
frames 0 and 1 (identity shuffle). -/
def sampleState1 : MMState := (acceptJob sampleState0 "A" 2048 [0, 1, 2, 3]).1

/-! ### Lemmas about the association-list page table -/

theorem mapFind_eq_none_iff (t : List (Int × Nat)) (k : Int) :
    mapFind t k = none ↔ k ∉ tableKeys t := by
  simp only [mapFind, tableKeys, Option.map_eq_none', List.find?_eq_none, List.mem_map,
    beq_iff_eq, not_exists, not_and]

theorem mapFind_isSome_of_mem (t : List (Int × Nat)) (k : Int) (h : k ∈ tableKeys t) :
    ∃ f, mapFind t k = some f := by
  rcases hf : mapFind t k with _ | f
  · exact absurd ((mapFind_eq_none_iff t k).1 hf) (not_not_intro h)
  · exact ⟨f, rfl⟩

theorem mapFind_mem (t : List (Int × Nat)) (k : Int) (f : Nat) (h : mapFind t k = some f) :
    (k, f) ∈ t := by
  simp only [mapFind, Option.map_eq_some'] at h
  obtain ⟨e, he, hef⟩ := h
  have h1 := List.find?_some he
  have h2 := List.mem_of_find?_eq_some he
  simp only [beq_iff_eq] at h1
  have he2 : e = (k, f) := by cases e; simp_all
  rwa [he2] at h2

theorem mem_mapFind (t : List (Int × Nat)) (k : Int) (f : Nat)
    (hk : (tableKeys t).Nodup) (h : (k, f) ∈ t) : mapFind t k = some f := by
  induction t with
  | nil => cases h
  | cons e rest ih =>
    simp only [tableKeys, List.map_cons, List.nodup_cons] at hk
    rcases List.mem_cons.1 h with h | h
    · subst h; simp [mapFind]
    · have hne : e.1 ≠ k := by
        intro hek
        exact hk.1 (by simpa [tableKeys, hek] using List.mem_map_of_mem Prod.fst h)
      rw [mapFind, List.find?_cons_of_neg _ (by simp [hne])]
      exact ih hk.2 h

theorem key_val_unique (t : List (Int × Nat)) (k : Int) (v1 v2 : Nat)
    (hk : (tableKeys t).Nodup) (h1 : (k, v1) ∈ t) (h2 : (k, v2) ∈ t) : v1 = v2 := by
  have e1 := mem_mapFind t k v1 hk h1
  have e2 := mem_mapFind t k v2 hk h2
  rw [e1] at e2
  exact Option.some_injective _ e2

theorem snd_unique (t : List (Int × Nat)) (e1 e2 : Int × Nat)
    (hv : (tableVals t).Nodup) (h1 : e1 ∈ t) (h2 : e2 ∈ t) (h : e1.2 = e2.2) : e1 = e2 := by
  have := List.inj_on_of_nodup_map (f := Prod.snd) (l := t) hv
  exact this h1 h2 h

theorem mapInsert_of_not_mem (t : List (Int × Nat)) (k : Int) (v : Nat)
    (h : k ∉ tableKeys t) : mapInsert t k v = t ++ [(k, v)] := by
  have hf : t.find? (fun e => e.1 == k) = none := by
    rw [List.find?_eq_none]
    intro e he
    simp only [beq_iff_eq]
    intro hek
    exact h (by simpa [tableKeys, hek] using List.mem_map_of_mem Prod.fst he)
  simp [mapInsert, hf]

theorem mapErase_eq_filter (t : List (Int × Nat)) (k : Int) :
    mapErase t k = t.filter (fun e => !(e.1 == k)) := rfl

theorem tableKeys_mapErase_sublist (t : List (Int × Nat)) (k : Int) :
    (tableKeys (mapErase t k)).Sublist (tableKeys t) :=
  List.Sublist.map Prod.fst (List.filter_sublist t)

theorem tableVals_mapErase_sublist (t : List (Int × Nat)) (k : Int) :
    (tableVals (mapErase t k)).Sublist (tableVals t) :=
  List.Sublist.map Prod.snd (List.filter_sublist t)

theorem mem_mapErase (t : List (Int × Nat)) (k k2 : Int) (hne : k2 ≠ k) (h : k2 ∈ tableKeys t) :
    k2 ∈ tableKeys (mapErase t k) := by
  simp only [tableKeys, List.mem_map] at h ⊢
  obtain ⟨e, he, hek⟩ := h
  refine ⟨e, ?_, hek⟩
  simp only [mapErase, List.mem_filter, Bool.not_eq_true', beq_eq_false_iff_ne, ne_eq]
  exact ⟨he, by rw [hek]; exact hne⟩

theorem mapFind_mapErase_ne (t : List (Int × Nat)) (k k2 : Int) (hne : k2 ≠ k) :
    mapFind (mapErase t k) k2 = mapFind t k2 := by
  induction t with
  | nil => rfl
  | cons e rest ih =>
    by_cases hek : e.1 = k
    · rw [mapErase_eq_filter, List.filter_cons, if_neg (by simp [hek]),
        ← mapErase_eq_filter, ih]
      rw [mapFind, mapFind,
        List.find?_cons_of_neg _ (by simp only [hek, beq_iff_eq]; exact hne.symm)]
    · rw [mapErase_eq_filter, List.filter_cons, if_pos (by simp [hek]), ← mapErase_eq_filter]
      by_cases hek2 : e.1 = k2
      · rw [mapFind, List.find?_cons_of_pos _ (by simp [hek2]), mapFind,
          List.find?_cons_of_pos _ (by simp [hek2])]
      · rw [mapFind, List.find?_cons_of_neg _ (by simp [hek2]), mapFind,
          List.find?_cons_of_neg _ (by simp [hek2])]
        exact ih

/-! ### Lemmas about frame-vector reads and writes -/

theorem frameAtL_set_self (l : List PageFrame) (i : Nat) (a : PageFrame) (h : i < l.length) :
    frameAtL (l.set i a) i = a := by
  simp [frameAtL, List.getD_eq_getElem?_getD, List.getElem?_set_self h]

theorem frameAtL_set_ne (l : List PageFrame) (i j : Nat) (a : PageFrame) (h : i ≠ j) :
    frameAtL (l.set i a) j = frameAtL l j := by
  simp [frameAtL, List.getD_eq_getElem?_getD, List.getElem?_set_ne h]

theorem length_setOcc (l : List PageFrame) (f : Nat) (jid pn : Int) :
    (setOcc l f jid pn).length = l.length := List.length_set l f _

theorem length_clearOcc (l : List PageFrame) (f : Nat) :
    (clearOcc l f).length = l.length := List.length_set l f _

theorem frameAtL_setOcc_self (l : List PageFrame) (f : Nat) (jid pn : Int) (h : f < l.length) :
    frameAtL (setOcc l f jid pn) f =
      { frameAtL l f with isOccupied := true, jobId := jid, pageNumber := pn } :=
  frameAtL_set_self l f _ h

theorem frameAtL_setOcc_ne (l : List PageFrame) (f x : Nat) (jid pn : Int) (h : f ≠ x) :
    frameAtL (setOcc l f jid pn) x = frameAtL l x :=
  frameAtL_set_ne l f x _ h

theorem frameAtL_clearOcc_self (l : List PageFrame) (f : Nat) :
    frameAtL (clearOcc l f) f =
      { frameAtL l f with isOccupied := false, jobId := -1, pageNumber := -1 } := by
  by_cases h : f < l.length
  · exact frameAtL_set_self l f _ h
  · have hs : clearOcc l f = l := by
      rw [clearOcc]; exact List.set_eq_of_length_le (Nat.le_of_not_lt h)
    rw [hs]
    have hd : frameAtL l f = dfltFrame := by
      simp [frameAtL, List.getD_eq_getElem?_getD, List.getElem?_eq_none (Nat.le_of_not_lt h)]
    rw [hd]; rfl

theorem frameAtL_clearOcc_ne (l : List PageFrame) (f x : Nat) (h : f ≠ x) :
    frameAtL (clearOcc l f) x = frameAtL l x :=
  frameAtL_set_ne l f x _ h

/-! ### Counting free frames -/

theorem length_filter_range_getD (l : List PageFrame) (p : PageFrame → Bool) :
    ((List.range l.length).filter
      (fun i => ((l[i]?).map p).getD false)).length = l.countP p := by
  induction l with
  | nil => simp
  | cons a rest ih =>
    rw [List.length_cons, List.range_succ_eq_map, List.filter_cons]
    by_cases hp : p a
    · rw [if_pos (by simp [hp])]
      rw [List.length_cons, List.countP_cons_of_pos _ _ hp, ← ih]
      congr 1
      rw [List.filter_map, List.length_map]
      congr 1
      apply List.filter_congr
      intro i _
      simp [Function.comp]
    · rw [if_neg (by simp [hp])]
      rw [List.countP_cons_of_neg _ _ (by simp [hp]), ← ih]
      rw [List.filter_map, List.length_map]
      congr 1
      apply List.filter_congr
      intro i _
      simp [Function.comp]

theorem length_availableFrames (s : MMState) (h : (s.frames.length : Int) = s.totalFrames) :
    (availableFrames s).length = freeFrameCount s := by
  have ht : s.totalFrames.toNat = s.frames.length := by omega
  rw [availableFrames, ht]
  exact length_filter_range_getD s.frames _

theorem nodup_availableFrames (s : MMState) : (availableFrames s).Nodup :=
  (List.filter_sublist _).nodup (List.nodup_range _)

theorem mem_availableFrames (s : MMState) (i : Nat) (h : i ∈ availableFrames s) :
    i < s.frames.length ∧ (frameAtL s.frames i).isOccupied = false := by
  rw [availableFrames, List.mem_filter, List.mem_range] at h
  obtain ⟨_, hfree⟩ := h
  rcases hoi : s.frames[i]? with _ | fr
  · rw [hoi] at hfree; simp at hfree
  · have hlen : i < s.frames.length := by
      by_contra hge
      rw [List.getElem?_eq_none (Nat.le_of_not_lt hge)] at hoi
      cases hoi
    rw [hoi] at hfree
    simp only [Option.map_some', Option.getD_some, Bool.not_eq_true'] at hfree
    refine ⟨hlen, ?_⟩
    rw [frameAtL, List.getD_eq_getElem?_getD, hoi]
    exact hfree

/-! ### The page numbers and page-table entries created by one allocation -/

theorem length_pnList (n : Int) (k : Nat) : (pnList n k).length = k := by
  rw [pnList, List.length_map, List.length_range]

theorem mem_pnList (n : Int) (k : Nat) (x : Int) :
    x ∈ pnList n k ↔ n ≤ x ∧ x < n + k := by
  rw [pnList]
  simp only [List.mem_map, List.mem_range]
  constructor
  · rintro ⟨j, hj, rfl⟩
    omega
  · intro h
    exact ⟨(x - n).toNat, by omega, by omega⟩

theorem nodup_pnList (n : Int) (k : Nat) : (pnList n k).Nodup := by
  rw [pnList]
  refine List.Nodup.map ?_ (List.nodup_range k)
  intro a b hab
  simp only [add_right_inj, Nat.cast_inj] at hab
  exact hab

theorem pairwise_lt_pnList (n : Int) (k : Nat) : (pnList n k).Pairwise (· < ·) := by
  rw [pnList]
  exact List.Pairwise.map _ (fun a b hab => by omega) (List.pairwise_lt_range k)

theorem pnList_cons (n : Int) (k : Nat) : pnList n (k + 1) = n :: pnList (n + 1) k := by
  rw [pnList, pnList, List.range_succ_eq_map, List.map_cons, List.map_map]
  congr 1
  · simp
  · apply List.map_congr_left
    intro j _
    simp only [Function.comp_apply]
    omega

theorem newEntries_fst (n : Int) (sel : List Nat) :
    (newEntries n sel).map Prod.fst = pnList n sel.length := by
  induction sel generalizing n with
  | nil => simp [newEntries, pnList]
  | cons f rest ih =>
    rw [newEntries, List.map_cons, List.length_cons, pnList_cons, ih]

theorem newEntries_snd (n : Int) (sel : List Nat) :
    (newEntries n sel).map Prod.snd = sel := by
  induction sel generalizing n with
  | nil => rfl
  | cons f rest ih => rw [newEntries, List.map_cons, ih]

theorem mem_newEntries (n : Int) (sel : List Nat) (e : Int × Nat) (h : e ∈ newEntries n sel) :
    n ≤ e.1 ∧ e.1 < n + sel.length ∧ e.2 ∈ sel := by
  induction sel generalizing n with
  | nil => cases h
  | cons f rest ih =>
    rw [newEntries, List.mem_cons] at h
    rcases h with h | h
    · subst h; simp
    · have := ih (n + 1) h
      refine ⟨by omega, by simp [List.length_cons]; omega, List.mem_cons_of_mem _ this.2.2⟩

/-! ### The allocation loop -/

theorem allocPages_nextPageNumber (ps jid : Int) (sel : List Nat) (i : Int) (acc : AllocAcc) :
    (allocPages ps jid sel i acc).nextPageNumber = acc.nextPageNumber + sel.length := by
  induction sel generalizing i acc with
  | nil => simp [allocPages]
  | cons f rest ih =>
    rw [allocPages, ih]
    simp [List.length_cons]
    omega

theorem allocPages_jobPages (ps jid : Int) (sel : List Nat) (i : Int) (acc : AllocAcc) :
    (allocPages ps jid sel i acc).jobPages = acc.jobPages ++ pnList acc.nextPageNumber sel.length := by
  induction sel generalizing i acc with
  | nil => simp [allocPages, pnList]
  | cons f rest ih =>
    rw [allocPages, ih]
    simp only [List.length_cons, pnList_cons]
    rw [List.append_assoc]
    rfl

theorem allocPages_frames_length (ps jid : Int) (sel : List Nat) (i : Int) (acc : AllocAcc) :
    (allocPages ps jid sel i acc).frames.length = acc.frames.length := by
  induction sel generalizing i acc with
  | nil => rfl
  | cons f rest ih =>
    rw [allocPages, ih]
    exact length_setOcc _ _ _ _

theorem allocPages_pageTable (ps jid : Int) (sel : List Nat) (i : Int) (acc : AllocAcc)
    (hfresh : ∀ k0 ∈ tableKeys acc.pageTable, k0 < acc.nextPageNumber) :
    (allocPages ps jid sel i acc).pageTable =
      acc.pageTable ++ newEntries acc.nextPageNumber sel := by
  induction sel generalizing i acc with
  | nil => simp [allocPages, newEntries]
  | cons f rest ih =>
    have hnot : acc.nextPageNumber ∉ tableKeys acc.pageTable := fun hmem =>
      absurd (hfresh _ hmem) (by omega)
    have hins := mapInsert_of_not_mem acc.pageTable acc.nextPageNumber f hnot
    have hstep := ih (i + 1)
      { pages := acc.pages ++
          [{ pageNumber := acc.nextPageNumber, frameNumber := f, isValid := true,
             jobId := jid, offset := i * ps }]
        frames := setOcc acc.frames f jid acc.nextPageNumber
        pageTable := mapInsert acc.pageTable acc.nextPageNumber f
        jobPages := acc.jobPages ++ [acc.nextPageNumber]
        nextPageNumber := acc.nextPageNumber + 1 }
      (by
        intro k0 hk0
        show k0 < acc.nextPageNumber + 1
        replace hk0 : k0 ∈ tableKeys (mapInsert acc.pageTable acc.nextPageNumber f) := hk0
        rw [hins] at hk0
        simp only [tableKeys, List.map_append, List.mem_append, List.map_cons, List.map_nil,
          List.mem_singleton] at hk0
        rcases hk0 with hk0 | hk0
        · have := hfresh k0 hk0
          omega
        · omega)
    rw [allocPages, hstep]
    show mapInsert acc.pageTable acc.nextPageNumber f ++ newEntries (acc.nextPageNumber + 1) rest =
      acc.pageTable ++ newEntries acc.nextPageNumber (f :: rest)
    rw [hins, newEntries, List.append_assoc]
    rfl

theorem allocPages_frames_not_mem (ps jid : Int) (sel : List Nat) (i : Int) (acc : AllocAcc)
    (x : Nat) (hx : x ∉ sel) :
    frameAtL (allocPages ps jid sel i acc).frames x = frameAtL acc.frames x := by
  induction sel generalizing i acc with
  | nil => rfl
  | cons f rest ih =>
    rw [allocPages]
    have hxr : x ∉ rest := fun h => hx (List.mem_cons_of_mem _ h)
    have hfx : f ≠ x := fun h => hx (h ▸ List.mem_cons_self f rest)
    rw [ih _ _ hxr]
    exact frameAtL_setOcc_ne _ _ _ _ _ hfx

theorem allocPages_frames_mem (ps jid : Int) (sel : List Nat) (i : Int) (acc : AllocAcc)
    (hsel : sel.Nodup) (pn : Int) (f : Nat)
    (he : (pn, f) ∈ newEntries acc.nextPageNumber sel) (hf : f < acc.frames.length) :
    frameAtL (allocPages ps jid sel i acc).frames f =
      { frameAtL acc.frames f with isOccupied := true, jobId := jid, pageNumber := pn } := by
  induction sel generalizing i acc with
  | nil => cases he
  | cons f0 rest ih =>
    rw [List.nodup_cons] at hsel
    rw [newEntries, List.mem_cons] at he
    rw [allocPages]
    rcases he with he | he
    · obtain ⟨hpn, hff⟩ : pn = acc.nextPageNumber ∧ f = f0 := by
        exact ⟨congrArg Prod.fst he, congrArg Prod.snd he⟩
      subst hpn; subst hff
      rw [allocPages_frames_not_mem _ _ _ _ _ _ hsel.1]
      exact frameAtL_setOcc_self _ _ _ _ hf
    · have hfr : f ∈ rest := (mem_newEntries _ _ _ he).2.2
      have hne : f0 ≠ f := fun h => hsel.1 (h ▸ hfr)
      have hstep := ih (i + 1)
        { pages := acc.pages ++
            [{ pageNumber := acc.nextPageNumber, frameNumber := f0, isValid := true,
               jobId := jid, offset := i * ps }]
          frames := setOcc acc.frames f0 jid acc.nextPageNumber
          pageTable := mapInsert acc.pageTable acc.nextPageNumber f0
          jobPages := acc.jobPages ++ [acc.nextPageNumber]
          nextPageNumber := acc.nextPageNumber + 1 }
        hsel.2 he (by rw [length_setOcc]; exact hf)
      rw [hstep, frameAtL_setOcc_ne _ _ _ _ _ hne]

/-! ### The freeing loop -/

theorem freeLoop_frames_length (pns : List Int) (acc : FreeAcc) :
    (freeLoop pns acc).frames.length = acc.frames.length := by
  induction pns generalizing acc with
  | nil => rfl
  | cons pn rest ih =>
    rw [freeLoop]
    rcases h : mapFind acc.pageTable pn with _ | f
    · exact ih acc
    · rw [ih]
      exact length_clearOcc _ _

theorem freeLoop_spec (pns : List Int) (acc : FreeAcc)
    (hk : (tableKeys acc.pageTable).Nodup)
    (hv : (tableVals acc.pageTable).Nodup)
    (hp : pns.Nodup)
    (hsub : ∀ pn ∈ pns, pn ∈ tableKeys acc.pageTable) :
    (freeLoop pns acc).pageTable =
        acc.pageTable.filter (fun e => !(decide (e.1 ∈ pns))) ∧
    (freeLoop pns acc).freed = acc.freed + pns.length ∧
    (∀ e ∈ acc.pageTable, e.1 ∈ pns →
        frameAtL (freeLoop pns acc).frames e.2 =
          { frameAtL acc.frames e.2 with isOccupied := false, jobId := -1, pageNumber := -1 }) ∧
    (∀ x : Nat, (∀ e ∈ acc.pageTable, e.1 ∈ pns → e.2 ≠ x) →
        frameAtL (freeLoop pns acc).frames x = frameAtL acc.frames x) := by
  induction pns generalizing acc with
  | nil =>
    refine ⟨by simp [freeLoop], by simp [freeLoop], ?_, fun x _ => rfl⟩
    intro e _ he
    cases he
  | cons pn rest ih =>
    obtain ⟨f, hf⟩ := mapFind_isSome_of_mem _ _ (hsub pn (List.mem_cons_self _ _))
    have hmem : (pn, f) ∈ acc.pageTable := mapFind_mem _ _ _ hf
    rw [List.nodup_cons] at hp
    have hk2 : (tableKeys (mapErase acc.pageTable pn)).Nodup :=
      (tableKeys_mapErase_sublist _ _).nodup hk
    have hv2 : (tableVals (mapErase acc.pageTable pn)).Nodup :=
      (tableVals_mapErase_sublist _ _).nodup hv
    have hsub2 : ∀ q ∈ rest, q ∈ tableKeys (mapErase acc.pageTable pn) := fun q hq =>
      mem_mapErase _ _ _ (fun hqe => hp.1 (hqe ▸ hq)) (hsub q (List.mem_cons_of_mem _ hq))
    obtain ⟨ht, hfree, hclear, hkeep⟩ :=
      ih { frames := clearOcc acc.frames f, pageTable := mapErase acc.pageTable pn,
           freed := acc.freed + 1 } hk2 hv2 hp.2 hsub2
    have hloop : freeLoop (pn :: rest) acc =
        freeLoop rest { frames := clearOcc acc.frames f, pageTable := mapErase acc.pageTable pn, freed := acc.freed + 1 } := by
      rw [freeLoop, hf]
    have hsndx : ∀ e ∈ acc.pageTable, e.2 = f → e = (pn, f) := by
      intro e he hef
      exact snd_unique acc.pageTable e (pn, f) hv he hmem hef
    refine ⟨?_, ?_, ?_, ?_⟩
    · rw [hloop, ht]
      show (mapErase acc.pageTable pn).filter (fun e => !(decide (e.1 ∈ rest))) = _
      rw [mapErase_eq_filter, List.filter_filter]
      apply List.filter_congr
      intro e _
      by_cases h1 : e.1 = pn <;> by_cases h2 : e.1 ∈ rest <;> simp [h1, h2]
    · rw [hloop, hfree]
      show acc.freed + 1 + rest.length = acc.freed + (rest.length + 1)
      omega
    · intro e he hein
      rcases List.mem_cons.1 hein with h1 | h1
      · have hef : e = (pn, f) := by
          have hee : e = (pn, e.2) := by rw [← h1]
          have hpe : (pn, e.2) ∈ acc.pageTable := by rwa [hee] at he
          have h2 := key_val_unique acc.pageTable pn e.2 f hk hpe hmem
          rw [hee, h2]
        rw [hloop, hef]
        have hx := hkeep f (by
          intro e2 he2 hr2 he2f
          have he2t : e2 ∈ acc.pageTable := List.mem_of_mem_filter he2
          have he2e : e2 = (pn, f) := hsndx e2 he2t he2f
          rw [mapErase_eq_filter, List.mem_filter] at he2
          rw [he2e] at he2
          simp at he2)
        show frameAtL (freeLoop rest { frames := clearOcc acc.frames f, pageTable := mapErase acc.pageTable pn, freed := acc.freed + 1 }).frames f = { frameAtL acc.frames f with isOccupied := false, jobId := -1, pageNumber := -1 }
        rw [hx]
        exact frameAtL_clearOcc_self acc.frames f
      · have hne : e.1 ≠ pn := fun h => hp.1 (h ▸ h1)
        have he2 : e ∈ mapErase acc.pageTable pn := by
          rw [mapErase_eq_filter, List.mem_filter]
          exact ⟨he, by simp [hne]⟩
        have hef : e.2 ≠ f := fun h => hne (by
          have := hsndx e he h
          rw [this])
        rw [hloop, hclear e he2 h1, frameAtL_clearOcc_ne _ _ _ (fun h => hef h.symm)]
    · intro x hx
      rw [hloop]
      have hfx : f ≠ x := hx (pn, f) hmem (List.mem_cons_self _ _)
      rw [hkeep x (by
        intro e2 he2 hr2
        exact hx e2 (List.mem_of_mem_filter he2) (List.mem_cons_of_mem _ hr2))]
      exact frameAtL_clearOcc_ne _ _ _ hfx

/-! ### Unfolding the three operations by case -/

theorem acceptJob_eq_err_nonpos (s : MMState) (nm : String) (sz : Int) (sh : List Nat)
    (h : sz ≤ 0) : acceptJob s nm sz sh = (s, .error .invalidArgument) := by
  rw [acceptJob, if_pos h]

theorem acceptJob_eq_err_big (s : MMState) (nm : String) (sz : Int) (sh : List Nat)
    (h1 : ¬ sz ≤ 0) (h2 : MAX_JOB_SIZE < sz) :
    acceptJob s nm sz sh = (s, .error .invalidArgument) := by
  rw [acceptJob, if_neg h1, if_pos h2]

theorem acceptJob_eq_err_frames (s : MMState) (nm : String) (sz : Int) (sh : List Nat)
    (h1 : ¬ sz ≤ 0) (h2 : ¬ MAX_JOB_SIZE < sz)
    (h3 : (freeFrameCount s : Int) < pagesNeededFor s sz) :
    acceptJob s nm sz sh = (s, .error .insufficientFrames) := by
  rw [acceptJob, if_neg h1, if_neg h2, if_pos h3]

theorem acceptJob_eq_ok (s : MMState) (nm : String) (sz : Int) (sh : List Nat)
    (h1 : ¬ sz ≤ 0) (h2 : ¬ MAX_JOB_SIZE < sz)
    (h3 : ¬ (freeFrameCount s : Int) < pagesNeededFor s sz) :
    acceptJob s nm sz sh =
      (acceptState s nm sz sh,
       .ok { jobId := s.nextJobId, pagesAllocated := pagesNeededFor s sz,
             fragmentationBytes := fragmentationFor s sz,
             pageNumbers := (acceptAcc s sz sh).jobPages }) := by
  rw [acceptJob, if_neg h1, if_neg h2, if_neg h3]

theorem removeJob_eq_err_nonpos (s : MMState) (jid : Int) (h : jid ≤ 0) :
    removeJob s jid = (s, .error .invalidArgument) := by
  rw [removeJob, if_pos h]

theorem removeJob_eq_err_notFound (s : MMState) (jid : Int) (h1 : ¬ jid ≤ 0)
    (h2 : s.jobs.find? (fun j => j.id == jid) = none) :
    removeJob s jid = (s, .error .notFound) := by
  rw [removeJob, if_neg h1, h2]

theorem removeJob_eq_ok (s : MMState) (jid : Int) (job : Job) (h1 : ¬ jid ≤ 0)
    (h2 : s.jobs.find? (fun j => j.id == jid) = some job) :
    removeJob s jid = (removeState s jid job, .ok job.pages.length) := by
  rw [removeJob, if_neg h1, h2]

/-! ### Membership in the live pages -/

theorem mem_livePages (s : MMState) (a : Int) :
    a ∈ livePages s ↔ ∃ j ∈ s.jobs, a ∈ j.pages := by
  simp only [livePages, List.mem_flatten, List.mem_map]
  constructor
  · rintro ⟨l, ⟨j, hj, rfl⟩, ha⟩
    exact ⟨j, hj, ha⟩
  · rintro ⟨j, hj, ha⟩
    exact ⟨j.pages, ⟨j, hj, rfl⟩, ha⟩

/-! ### `acceptJob` preserves well-formedness -/

theorem WF_acceptState (s : MMState) (nm : String) (sz : Int) (sh : List Nat)
    (hWF : WF s) (hperm : sh.Perm (availableFrames s))
    (h1 : ¬ sz ≤ 0)
    (h3 : ¬ (freeFrameCount s : Int) < pagesNeededFor s sz) :
    WF (acceptState s nm sz sh) := by
  obtain ⟨hps, hflen, hidx, hkn, hvn, htf, hft, hlk1, hlk2, hln, hjn, hjp, hpf, hj0⟩ := hWF
  set sel : List Nat := sh.take (pagesNeededFor s sz).toNat with hseldef
  have hshN : sh.Nodup := hperm.symm.nodup (nodup_availableFrames s)
  have hselN : sel.Nodup := (List.take_sublist _ _).nodup hshN
  have hselSub : ∀ f ∈ sel, f ∈ availableFrames s := fun f hf =>
    hperm.subset (List.take_sublist _ _ |>.subset hf)
  have hselFree : ∀ f ∈ sel, f < s.frames.length ∧ (frameAtL s.frames f).isOccupied = false :=
    fun f hf => mem_availableFrames s f (hselSub f hf)
  have hpn0 : 0 ≤ pagesNeededFor s sz := by
    apply Int.ediv_nonneg _ (le_of_lt hps)
    omega
  have hshlen : sh.length = freeFrameCount s := by
    rw [hperm.length_eq, length_availableFrames s hflen]
  have hlenSel : sel.length = (pagesNeededFor s sz).toNat := by
    rw [hseldef, List.length_take, hshlen]
    have := Int.toNat_le.mpr (not_lt.1 h3)
    omega
  have hki : ∀ k0 ∈ tableKeys s.pageTable, k0 < s.nextPageNumber := fun k0 hk0 =>
    hpf k0 (hlk2 k0 hk0)
  have htab : (acceptState s nm sz sh).pageTable =
      s.pageTable ++ newEntries s.nextPageNumber sel :=
    allocPages_pageTable s.pageSize s.nextJobId sel 0 (startAcc s) hki
  have hjpg : (acceptState s nm sz sh).jobs = s.jobs ++
      [{ id := s.nextJobId, name := nm, size := sz, pages := (acceptAcc s sz sh).jobPages }] := rfl
  have hjobPages : (acceptAcc s sz sh).jobPages = pnList s.nextPageNumber sel.length := by
    have h := allocPages_jobPages s.pageSize s.nextJobId sel 0 (startAcc s)
    rw [show (acceptAcc s sz sh).jobPages =
      (startAcc s).jobPages ++ pnList (startAcc s).nextPageNumber sel.length from h]
    rfl
  have hnext : (acceptState s nm sz sh).nextPageNumber = s.nextPageNumber + sel.length :=
    allocPages_nextPageNumber s.pageSize s.nextJobId sel 0 (startAcc s)
  have hflen2 : (acceptState s nm sz sh).frames.length = s.frames.length :=
    allocPages_frames_length s.pageSize s.nextJobId sel 0 (startAcc s)
  have hfr1 : ∀ x : Nat, x ∉ sel →
      frameAtL (acceptState s nm sz sh).frames x = frameAtL s.frames x := fun x hx =>
    allocPages_frames_not_mem s.pageSize s.nextJobId sel 0 (startAcc s) x hx
  have hfr2 : ∀ pn : Int, ∀ f : Nat, (pn, f) ∈ newEntries s.nextPageNumber sel →
      f < s.frames.length →
      frameAtL (acceptState s nm sz sh).frames f =
        { frameAtL s.frames f with isOccupied := true, jobId := s.nextJobId, pageNumber := pn } :=
    fun pn f he hf => allocPages_frames_mem s.pageSize s.nextJobId sel 0 (startAcc s) hselN pn f he hf
  have hSTlive : livePages (acceptState s nm sz sh) =
      livePages s ++ pnList s.nextPageNumber sel.length := by
    simp only [livePages, hjpg, List.map_append, List.flatten_append, List.map_cons,
      List.map_nil, List.flatten_cons, List.flatten_nil, List.append_nil]
    rw [hjobPages]
  have hSTkeys : tableKeys (acceptState s nm sz sh).pageTable =
      tableKeys s.pageTable ++ pnList s.nextPageNumber sel.length := by
    rw [htab, tableKeys, List.map_append, ← tableKeys, newEntries_fst]
  have hSTvals : tableVals (acceptState s nm sz sh).pageTable =
      tableVals s.pageTable ++ sel := by
    rw [htab, tableVals, List.map_append, ← tableVals, newEntries_snd]
  have hvalOcc : ∀ f ∈ tableVals s.pageTable, (frameAtL s.frames f).isOccupied = true := by
    intro f hf
    obtain ⟨e, he, rfl⟩ := List.mem_map.1 hf
    exact (htf e he).2.1
  have hselNotVal : ∀ f ∈ sel, f ∉ tableVals s.pageTable := by
    intro f hf hmem
    have h := hvalOcc f hmem
    rw [(hselFree f hf).2] at h
    cases h
  refine ⟨hps, ?_, ?_, ?_, ?_, ?_, ?_, ?_, ?_, ?_, ?_, ?_, ?_, ?_⟩
  · show ((acceptState s nm sz sh).frames.length : Int) = s.totalFrames
    rw [hflen2]
    exact hflen
  · intro i hi
    have hi2 : i < s.frames.length := by
      rw [List.mem_range, hflen2] at hi
      exact hi
    by_cases hisel : i ∈ sel
    · obtain ⟨e, he, hei⟩ := List.mem_map.1 (by rw [newEntries_snd]; exact hisel :
        i ∈ (newEntries s.nextPageNumber sel).map Prod.snd)
      have hee : (e.1, i) ∈ newEntries s.nextPageNumber sel := by
        rw [show (e.1, i) = e from by rw [← hei]]
        exact he
      rw [hfr2 e.1 i hee hi2]
      exact hidx i (List.mem_range.2 hi2)
    · rw [hfr1 i hisel]
      exact hidx i (List.mem_range.2 hi2)
  · rw [hSTkeys]
    rw [List.nodup_append]
    refine ⟨hkn, nodup_pnList _ _, ?_⟩
    intro a ha hb
    have h2 := (mem_pnList _ _ _).1 hb
    have h3 := hki a ha
    omega
  · rw [hSTvals]
    rw [List.nodup_append]
    exact ⟨hvn, hselN, fun a ha hb => hselNotVal a hb ha⟩
  · intro e he
    rw [htab] at he
    rcases List.mem_append.1 he with he | he
    · have h := htf e he
      have hnot : e.2 ∉ sel := by
        intro hmem
        have h2 := (hselFree e.2 hmem).2
        rw [h.2.1] at h2
        cases h2
      rw [hfr1 e.2 hnot, hflen2]
      exact h
    · have hbounds := mem_newEntries _ _ _ he
      have hfsel := hbounds.2.2
      have hee : (e.1, e.2) ∈ newEntries s.nextPageNumber sel := he
      rw [hfr2 e.1 e.2 hee (hselFree e.2 hfsel).1, hflen2]
      exact ⟨(hselFree e.2 hfsel).1, rfl, rfl⟩
  · intro i hi hocc
    have hi2 : i < s.frames.length := by
      rw [List.mem_range, hflen2] at hi
      exact hi
    rw [htab]
    by_cases hisel : i ∈ sel
    · obtain ⟨e, he, hei⟩ := List.mem_map.1 (by rw [newEntries_snd]; exact hisel :
        i ∈ (newEntries s.nextPageNumber sel).map Prod.snd)
      have hee : (e.1, i) ∈ newEntries s.nextPageNumber sel := by
        rw [show (e.1, i) = e from by rw [← hei]]
        exact he
      rw [hfr2 e.1 i hee hi2]
      exact List.mem_append_right _ hee
    · rw [hfr1 i hisel] at hocc ⊢
      exact List.mem_append_left _ (hft i (List.mem_range.2 hi2) hocc)
  · intro pn hpn
    rw [hSTlive] at hpn
    rw [hSTkeys]
    rcases List.mem_append.1 hpn with h | h
    · exact List.mem_append_left _ (hlk1 pn h)
    · exact List.mem_append_right _ h
  · intro pn hpn
    rw [hSTkeys] at hpn
    rw [hSTlive]
    rcases List.mem_append.1 hpn with h | h
    · exact List.mem_append_left _ (hlk2 pn h)
    · exact List.mem_append_right _ h
  · rw [hSTlive, List.nodup_append]
    refine ⟨hln, nodup_pnList _ _, ?_⟩
    intro a ha hb
    have h2 := (mem_pnList _ _ _).1 hb
    have h3 := hpf a ha
    omega
  · rw [hjpg, List.map_append, List.nodup_append]
    refine ⟨hjn, by simp, ?_⟩
    intro a ha hb
    simp only [List.map_cons, List.map_nil, List.mem_singleton] at hb
    obtain ⟨j, hj, rfl⟩ := List.mem_map.1 ha
    have := (hjp j hj).2.1
    omega
  · intro j hj
    rw [hjpg] at hj
    rcases List.mem_append.1 hj with hj | hj
    · obtain ⟨ha, hb, hc, hd⟩ := hjp j hj
      refine ⟨ha, ?_, hc, hd⟩
      show j.id < s.nextJobId + 1
      omega
    · simp only [List.mem_singleton] at hj
      subst hj
      refine ⟨hj0, by show s.nextJobId < s.nextJobId + 1; omega, by show (0 : Int) < sz; omega, ?_⟩
      show ((acceptAcc s sz sh).jobPages.length : Int) = (sz + s.pageSize - 1) / s.pageSize
      rw [hjobPages, length_pnList, hlenSel, Int.toNat_of_nonneg hpn0]
      rfl
  · intro pn hpn
    rw [hSTlive] at hpn
    rw [hnext]
    rcases List.mem_append.1 hpn with h | h
    · have := hpf pn h
      omega
    · have := (mem_pnList _ _ _).1 h
      omega
  · show 0 < s.nextJobId + 1
    omega

/-! ### `removeJob` preserves well-formedness -/

theorem eraseP_split {α : Type} (p : α → Bool) (l1 l2 : List α) (a : α)
    (h1 : ∀ b ∈ l1, ¬ p b = true) (ha : p a = true) :
    (l1 ++ a :: l2).eraseP p = l1 ++ l2 := by
  induction l1 with
  | nil =>
    simp only [List.nil_append]
    exact List.eraseP_cons_of_pos ha
  | cons b bs ih =>
    rw [List.cons_append, List.eraseP_cons_of_neg (h1 b (List.mem_cons_self _ _)),
      ih (fun c hc => h1 c (List.mem_cons_of_mem _ hc)), List.cons_append]

theorem WF_removeState (s : MMState) (jid : Int) (job : Job)
    (hWF : WF s) (hfind : s.jobs.find? (fun j => j.id == jid) = some job) :
    WF (removeState s jid job) := by
  obtain ⟨hps, hflen, hidx, hkn, hvn, htf, hft, hlk1, hlk2, hln, hjn, hjp, hpf, hj0⟩ := hWF
  have hjmem : job ∈ s.jobs := List.mem_of_find?_eq_some hfind
  obtain ⟨hpj, as, bs, hsplit, has⟩ := List.find?_eq_some.1 hfind
  have hjpagesLive : ∀ pn ∈ job.pages, pn ∈ livePages s := fun pn hpn =>
    (mem_livePages s pn).2 ⟨job, hjmem, hpn⟩
  have hjpagesN : job.pages.Nodup :=
    (List.sublist_flatten_of_mem (List.mem_map_of_mem Job.pages hjmem)).nodup hln
  have hjpagesKeys : ∀ pn ∈ job.pages, pn ∈ tableKeys s.pageTable := fun pn hpn =>
    hlk1 pn (hjpagesLive pn hpn)
  obtain ⟨ht, hfreed, hclear, hkeep⟩ :=
    freeLoop_spec job.pages { frames := s.frames, pageTable := s.pageTable, freed := 0 }
      hkn hvn hjpagesN hjpagesKeys
  have hRtab : (removeState s jid job).pageTable =
      s.pageTable.filter (fun e => !(decide (e.1 ∈ job.pages))) := ht
  have hRlen : (removeState s jid job).frames.length = s.frames.length :=
    freeLoop_frames_length job.pages _
  have hRjobs : (removeState s jid job).jobs = s.jobs.eraseP (fun j => j.id == jid) := rfl
  have hRclear : ∀ e ∈ s.pageTable, e.1 ∈ job.pages →
      frameAtL (removeState s jid job).frames e.2 =
        { frameAtL s.frames e.2 with isOccupied := false, jobId := -1, pageNumber := -1 } := hclear
  have hRkeep : ∀ x : Nat, (∀ e ∈ s.pageTable, e.1 ∈ job.pages → e.2 ≠ x) →
      frameAtL (removeState s jid job).frames x = frameAtL s.frames x := hkeep
  have herase : s.jobs.eraseP (fun j => j.id == jid) = as ++ bs := by
    rw [hsplit]
    exact eraseP_split _ as bs job (fun b hb => by simpa using has b hb) hpj
  have hliveS : livePages s =
      ((as.map Job.pages).flatten) ++ (job.pages ++ ((bs.map Job.pages).flatten)) := by
    rw [livePages, hsplit, List.map_append, List.flatten_append, List.map_cons, List.flatten_cons]
  have hliveR : livePages (removeState s jid job) =
      ((as.map Job.pages).flatten) ++ ((bs.map Job.pages).flatten) := by
    rw [livePages, hRjobs, herase, List.map_append, List.flatten_append]
  have hlnS := hln
  rw [hliveS, List.nodup_append] at hlnS
  obtain ⟨hAn, hmidn, hdisjA⟩ := hlnS
  rw [List.nodup_append] at hmidn
  obtain ⟨hjn2, hBn, hdisjJB⟩ := hmidn
  have hmemR : ∀ pn : Int, pn ∈ livePages (removeState s jid job) ↔
      (pn ∈ livePages s ∧ pn ∉ job.pages) := by
    intro pn
    rw [hliveR, hliveS, List.mem_append, List.mem_append, List.mem_append]
    constructor
    · rintro (h | h)
      · exact ⟨Or.inl h, fun hj => hdisjA h (List.mem_append_left _ hj)⟩
      · exact ⟨Or.inr (Or.inr h), fun hj => hdisjJB hj h⟩
    · rintro ⟨h | h | h, hnj⟩
      · exact Or.inl h
      · exact absurd h hnj
      · exact Or.inr h
  have hmemK : ∀ pn : Int, pn ∈ tableKeys (removeState s jid job).pageTable ↔
      (pn ∈ tableKeys s.pageTable ∧ pn ∉ job.pages) := by
    intro pn
    rw [hRtab, tableKeys, List.mem_map]
    constructor
    · rintro ⟨e, he, rfl⟩
      rw [List.mem_filter] at he
      refine ⟨List.mem_map_of_mem Prod.fst he.1, ?_⟩
      have := he.2
      simpa using this
    · rintro ⟨hk, hnj⟩
      obtain ⟨e, he, rfl⟩ := List.mem_map.1 hk
      exact ⟨e, List.mem_filter.2 ⟨he, by simpa using hnj⟩, rfl⟩
  have hnotouch : ∀ e ∈ s.pageTable, e.1 ∉ job.pages →
      (∀ e2 ∈ s.pageTable, e2.1 ∈ job.pages → e2.2 ≠ e.2) := by
    intro e he hnj e2 he2 hj2 hee
    have : e2 = e := snd_unique s.pageTable e2 e hvn he2 he hee
    rw [this] at hj2
    exact hnj hj2
  refine ⟨hps, ?_, ?_, ?_, ?_, ?_, ?_, ?_, ?_, ?_, ?_, ?_, ?_, hj0⟩
  · show ((removeState s jid job).frames.length : Int) = s.totalFrames
    rw [hRlen]
    exact hflen
  · intro i hi
    have hi2 : i < s.frames.length := by
      rw [List.mem_range, hRlen] at hi
      exact hi
    by_cases hex : ∃ e ∈ s.pageTable, e.1 ∈ job.pages ∧ e.2 = i
    · obtain ⟨e, he, hej, hei⟩ := hex
      subst hei
      rw [hRclear e he hej]
      exact hidx e.2 (List.mem_range.2 hi2)
    · rw [hRkeep i (fun e he hej hei => hex ⟨e, he, hej, hei⟩)]
      exact hidx i (List.mem_range.2 hi2)
  · rw [hRtab]
    exact (List.Sublist.map Prod.fst (List.filter_sublist _)).nodup hkn
  · rw [hRtab]
    exact (List.Sublist.map Prod.snd (List.filter_sublist _)).nodup hvn
  · intro e he
    rw [hRtab, List.mem_filter] at he
    obtain ⟨he1, he2⟩ := he
    have hnj : e.1 ∉ job.pages := by simpa using he2
    have h := htf e he1
    rw [hRkeep e.2 (hnotouch e he1 hnj), hRlen]
    exact h
  · intro i hi hocc
    have hi2 : i < s.frames.length := by
      rw [List.mem_range, hRlen] at hi
      exact hi
    by_cases hex : ∃ e ∈ s.pageTable, e.1 ∈ job.pages ∧ e.2 = i
    · obtain ⟨e, he, hej, hei⟩ := hex
      subst hei
      rw [hRclear e he hej] at hocc
      cases hocc
    · have hunch := hRkeep i (fun e he hej hei => hex ⟨e, he, hej, hei⟩)
      rw [hunch] at hocc ⊢
      have hmem := hft i (List.mem_range.2 hi2) hocc
      rw [hRtab, List.mem_filter]
      refine ⟨hmem, ?_⟩
      have hnj : (frameAtL s.frames i).pageNumber ∉ job.pages := fun hj =>
        hex ⟨((frameAtL s.frames i).pageNumber, i), hmem, hj, rfl⟩
      simpa using hnj
  · intro pn hpn
    rw [hmemR] at hpn
    exact (hmemK pn).2 ⟨hlk1 pn hpn.1, hpn.2⟩
  · intro pn hpn
    rw [hmemK] at hpn
    exact (hmemR pn).2 ⟨hlk2 pn hpn.1, hpn.2⟩
  · rw [hliveR, List.nodup_append]
    exact ⟨hAn, hBn, fun a ha hb => hdisjA ha (List.mem_append_right _ hb)⟩
  · rw [hRjobs, herase]
    have hsub : (as ++ bs).Sublist s.jobs := by
      rw [hsplit]
      exact List.Sublist.append_left (List.sublist_cons_self job bs) as
    exact ((List.Sublist.map Job.id hsub)).nodup hjn
  · intro j hj
    have hsub : (removeState s jid job).jobs.Sublist s.jobs := by
      rw [hRjobs]
      exact List.eraseP_sublist s.jobs
    exact hjp j (hsub.subset hj)
  · intro pn hpn
    rw [hmemR] at hpn
    exact hpf pn hpn.1

/-! ### Well-formedness of the initial state and of whole runs -/

theorem initState_frameAtL (ps tf : Int) (i : Nat) (hi : i < tf.toNat) :
    frameAtL (initState ps tf).frames i =
      { frameNumber := i, isOccupied := false, jobId := -1, pageNumber := -1, size := ps } := by
  show frameAtL ((List.range tf.toNat).map
    (fun i => { frameNumber := i, isOccupied := false, jobId := -1, pageNumber := -1, size := ps })) i = _
  rw [frameAtL, List.getD_eq_getElem?_getD, List.getElem?_map, List.getElem?_range hi]
  rfl

theorem WF_initState (ps tf : Int) (hps : 0 < ps) (htf : 0 < tf) : WF (initState ps tf) := by
  have hlen : (initState ps tf).frames.length = tf.toNat := by
    show ((List.range tf.toNat).map _).length = tf.toNat
    rw [List.length_map, List.length_range]
  refine ⟨hps, ?_, ?_, by simp [initState, tableKeys], by simp [initState, tableVals],
    ?_, ?_, ?_, ?_, by simp [livePages, initState], by simp [initState], ?_, ?_,
    by norm_num [initState]⟩
  · show ((initState ps tf).frames.length : Int) = tf
    rw [hlen]
    omega
  · intro i hi
    rw [List.mem_range, hlen] at hi
    rw [initState_frameAtL ps tf i hi]
  · intro e he
    simp [initState] at he
  · intro i hi hocc
    rw [List.mem_range, hlen] at hi
    rw [initState_frameAtL ps tf i hi] at hocc
    cases hocc
  · intro pn hpn
    simp [livePages, initState] at hpn
  · intro pn hpn
    simp [initState, tableKeys] at hpn
  · intro j hj
    simp [initState] at hj
  · intro pn hpn
    simp [livePages, initState] at hpn

theorem WF_initManager (ps tf : Int) (s0 : MMState) (h : initManager ps tf = some s0) :
    WF s0 := by
  rw [initManager] at h
  by_cases hc : ps ≤ 0 ∨ tf ≤ 0
  · rw [if_pos hc] at h
    cases h
  · rw [if_neg hc] at h
    injection h with h
    subst h
    push_neg at hc
    exact WF_initState ps tf (by omega) (by omega)

theorem WF_acceptJob (s : MMState) (nm : String) (sz : Int) (sh : List Nat)
    (hWF : WF s) (hperm : sh.Perm (availableFrames s)) : WF (acceptJob s nm sz sh).1 := by
  by_cases h1 : sz ≤ 0
  · rw [acceptJob_eq_err_nonpos s nm sz sh h1]
    exact hWF
  by_cases h2 : MAX_JOB_SIZE < sz
  · rw [acceptJob_eq_err_big s nm sz sh h1 h2]
    exact hWF
  by_cases h3 : (freeFrameCount s : Int) < pagesNeededFor s sz
  · rw [acceptJob_eq_err_frames s nm sz sh h1 h2 h3]
    exact hWF
  rw [acceptJob_eq_ok s nm sz sh h1 h2 h3]
  exact WF_acceptState s nm sz sh
    ⟨hWF.1, hWF.2.1, hWF.2.2.1, hWF.2.2.2.1, hWF.2.2.2.2.1, hWF.2.2.2.2.2.1,
     hWF.2.2.2.2.2.2.1, hWF.2.2.2.2.2.2.2.1, hWF.2.2.2.2.2.2.2.2.1,
     hWF.2.2.2.2.2.2.2.2.2.1, hWF.2.2.2.2.2.2.2.2.2.2.1, hWF.2.2.2.2.2.2.2.2.2.2.2.1,
     hWF.2.2.2.2.2.2.2.2.2.2.2.2.1, hWF.2.2.2.2.2.2.2.2.2.2.2.2.2⟩
    hperm h1 h3

theorem WF_removeJob (s : MMState) (jid : Int) (hWF : WF s) : WF (removeJob s jid).1 := by
  by_cases h1 : jid ≤ 0
  · rw [removeJob_eq_err_nonpos s jid h1]
    exact hWF
  rcases hf : s.jobs.find? (fun j => j.id == jid) with _ | job
  · rw [removeJob_eq_err_notFound s jid h1 hf]
    exact hWF
  · rw [removeJob_eq_ok s jid job h1 hf]
    exact WF_removeState s jid job hWF hf

theorem WF_stepOp (g : List Nat → List Nat) (hg : ∀ l, (g l).Perm l)
    (s : MMState) (op : Op) (hWF : WF s) : WF (stepOp g s op) := by
  cases op with
  | accept nm sz => exact WF_acceptJob s nm sz _ hWF (hg _)
  | remove jid => exact WF_removeJob s jid hWF

theorem WF_runOps (g : List Nat → List Nat) (hg : ∀ l, (g l).Perm l)
    (s : MMState) (ops : List Op) (hWF : WF s) : WF (runOps g s ops) := by
  induction ops generalizing s with
  | nil => exact hWF
  | cons op ops ih => exact ih _ (WF_stepOp g hg s op hWF)

/-! ### The bijection and counting conclusions follow from well-formedness -/

theorem countP_eq_filter_range (l : List PageFrame) (p : PageFrame → Bool) :
    l.countP p = ((List.range l.length).filter (fun i => p (frameAtL l i))).length := by
  rw [← length_filter_range_getD l p]
  congr 1
  apply List.filter_congr
  intro i hi
  rw [List.mem_range] at hi
  rw [List.getElem?_eq_getElem hi]
  rw [frameAtL, List.getD_eq_getElem?_getD, List.getElem?_eq_getElem hi]
  rfl

theorem length_eq_of_nodup_of_mem_iff {α : Type} (l1 l2 : List α)
    (h1 : l1.Nodup) (h2 : l2.Nodup) (h : ∀ a, a ∈ l1 ↔ a ∈ l2) : l1.length = l2.length := by
  apply Nat.le_antisymm
  · exact (h1.subperm (fun a ha => (h a).1 ha)).length_le
  · exact (h2.subperm (fun a ha => (h a).2 ha)).length_le

theorem InvariantOk_of_WF (s : MMState) (hWF : WF s) : InvariantOk s := by
  obtain ⟨hps, hflen, hidx, hkn, hvn, htf, hft, hlk1, hlk2, hln, hjn, hjp, hpf, hj0⟩ := hWF
  refine ⟨?_, ?_, ?_, ?_⟩
  · intro pn hpn
    obtain ⟨f, hf⟩ := mapFind_isSome_of_mem s.pageTable pn (hlk1 pn hpn)
    have hmem := mapFind_mem s.pageTable pn f hf
    have h := htf (pn, f) hmem
    exact ⟨f, hf, h.1, h.2.1⟩
  · intro pn1 h1 pn2 h2 hne heq
    obtain ⟨f1, hf1⟩ := mapFind_isSome_of_mem s.pageTable pn1 (hlk1 pn1 h1)
    obtain ⟨f2, hf2⟩ := mapFind_isSome_of_mem s.pageTable pn2 (hlk1 pn2 h2)
    rw [hf1, hf2] at heq
    have hff : f1 = f2 := Option.some_injective _ heq
    subst hff
    have hm1 := mapFind_mem s.pageTable pn1 f1 hf1
    have hm2 := mapFind_mem s.pageTable pn2 f1 hf2
    have := snd_unique s.pageTable (pn1, f1) (pn2, f1) hvn hm1 hm2 rfl
    exact hne (congrArg Prod.fst this)
  · intro i hi hocc
    have hmem := hft i hi hocc
    refine ⟨(frameAtL s.frames i).pageNumber,
      hlk2 _ (List.mem_map_of_mem Prod.fst hmem), ?_⟩
    exact mem_mapFind s.pageTable _ i hkn hmem
  · have hcount : s.frames.countP (fun fr => fr.isOccupied) = s.pageTable.length := by
      rw [countP_eq_filter_range]
      have hv : (tableVals s.pageTable).length = s.pageTable.length := List.length_map _ _
      rw [← hv]
      apply Eq.symm
      apply length_eq_of_nodup_of_mem_iff _ _ hvn
        ((List.filter_sublist _).nodup (List.nodup_range _))
      intro f
      constructor
      · intro hf
        obtain ⟨e, he, rfl⟩ := List.mem_map.1 hf
        have h := htf e he
        rw [List.mem_filter, List.mem_range]
        exact ⟨h.1, h.2.1⟩
      · intro hf
        rw [List.mem_filter] at hf
        have hmem := hft f hf.1 hf.2
        exact List.mem_map_of_mem Prod.snd hmem
    have hkeys : s.pageTable.length = (livePages s).length := by
      have hk : (tableKeys s.pageTable).length = s.pageTable.length := List.length_map _ _
      rw [← hk]
      exact length_eq_of_nodup_of_mem_iff _ _ hkn hln (fun a => ⟨hlk2 a, hlk1 a⟩)
    have hsum : (livePages s).length = ((s.jobs.map (fun j => j.pages.length)).sum) := by
      rw [livePages, List.length_flatten, List.map_map]
      rfl
    rw [hcount, hkeys, hsum]

/-! ### Unfolding `resolveAddress` by case -/

theorem resolveAddress_fst (s : MMState) (jid la : Int) : (resolveAddress s jid la).1 = s := by
  rw [resolveAddress]
  split
  · rfl
  · split
    · rfl
    · split
      · rfl
      · split
        · rfl
        · split
          · rfl
          · rfl

theorem resolveAddress_eq_neg (s : MMState) (jid la : Int) (h : la < 0) :
    resolveAddress s jid la = (s, .error .invalidArgument) := by
  rw [resolveAddress, if_pos h]

theorem resolveAddress_eq_notFound (s : MMState) (jid la : Int) (h : ¬ la < 0)
    (hf : s.jobs.find? (fun j => j.id == jid) = none) :
    resolveAddress s jid la = (s, .error .notFound) := by
  rw [resolveAddress, if_neg h, hf]

theorem resolveAddress_eq_oobSize (s : MMState) (jid la : Int) (job : Job) (h : ¬ la < 0)
    (hf : s.jobs.find? (fun j => j.id == jid) = some job) (h2 : job.size ≤ la) :
    resolveAddress s jid la = (s, .error .outOfBounds) := by
  rw [resolveAddress, if_neg h, hf]
  simp only [if_pos h2]

theorem resolveAddress_eq_ok (s : MMState) (jid la : Int) (job : Job) (f : Nat) (h : ¬ la < 0)
    (hf : s.jobs.find? (fun j => j.id == jid) = some job) (h2 : ¬ job.size ≤ la)
    (h3 : ¬ (job.pages.length : Int) ≤ la / s.pageSize)
    (hm : mapFind s.pageTable (job.pages.getD (la / s.pageSize).toNat 0) = some f) :
    resolveAddress s jid la =
      (s, .ok { pageNumber := la / s.pageSize, offset := la % s.pageSize,
                actualPageNumber := job.pages.getD (la / s.pageSize).toNat 0,
                frameNumber := f,
                physicalAddress := (f : Int) * s.pageSize + la % s.pageSize }) := by
  rw [resolveAddress, if_neg h, hf]
  simp only [if_neg h2, if_neg h3, hm]

/-! ### The ceiling-division identity and address bounds -/

theorem ceil_div_eq (a b : Int) (ha : 0 < a) (hb : 0 < b) :
    ⌈(a : ℚ) / (b : ℚ)⌉ = (a + b - 1) / b := by
  have hdm := Int.ediv_add_emod (a + b - 1) b
  have hr0 := Int.emod_nonneg (a + b - 1) (ne_of_gt hb)
  have hrb := Int.emod_lt_of_pos (a + b - 1) hb
  have hub : a ≤ b * ((a + b - 1) / b) := by linarith
  have hlb : b * ((a + b - 1) / b) ≤ a + b - 1 := by linarith
  have hbq : (0 : ℚ) < (b : ℚ) := by exact_mod_cast hb
  rw [Int.ceil_eq_iff]
  constructor
  · rw [lt_div_iff hbq]
    have hz : ((a + b - 1) / b - 1) * b < a := by nlinarith
    calc ((((a + b - 1) / b : Int) : ℚ) - 1) * (b : ℚ)
        = ((((a + b - 1) / b - 1) * b : Int) : ℚ) := by push_cast; ring
      _ < ((a : Int) : ℚ) := by exact_mod_cast hz
  · rw [div_le_iff hbq]
    have hz : a ≤ ((a + b - 1) / b) * b := by nlinarith
    calc ((a : Int) : ℚ) ≤ ((((a + b - 1) / b) * b : Int) : ℚ) := by exact_mod_cast hz
      _ = (((a + b - 1) / b : Int) : ℚ) * (b : ℚ) := by push_cast; ring

theorem addr_div_lt (la size ps len : Int) (hps : 0 < ps) (h0 : 0 ≤ la) (hla : la < size)
    (hlen : len = (size + ps - 1) / ps) : la / ps < len := by
  have h1 : la / ps ≤ (size - 1) / ps := Int.ediv_le_ediv hps (by omega)
  have h2 : (size + ps - 1) / ps = (size - 1) / ps + 1 := by
    have he : size + ps - 1 = (size - 1) + 1 * ps := by ring
    rw [he, Int.add_mul_ediv_right _ _ (ne_of_gt hps)]
  omega

/-! ### Success facts about `acceptJob` -/

theorem acceptAcc_jobPages (s : MMState) (sz : Int) (sh : List Nat) :
    (acceptAcc s sz sh).jobPages =
      pnList s.nextPageNumber (sh.take (pagesNeededFor s sz).toNat).length := by
  have h := allocPages_jobPages s.pageSize s.nextJobId
    (sh.take (pagesNeededFor s sz).toNat) 0 (startAcc s)
  rw [show (acceptAcc s sz sh).jobPages = (startAcc s).jobPages ++
    pnList (startAcc s).nextPageNumber (sh.take (pagesNeededFor s sz).toNat).length from h]
  rfl

theorem acceptAcc_nextPageNumber (s : MMState) (sz : Int) (sh : List Nat) :
    (acceptAcc s sz sh).nextPageNumber =
      s.nextPageNumber + (sh.take (pagesNeededFor s sz).toNat).length :=
  allocPages_nextPageNumber s.pageSize s.nextJobId
    (sh.take (pagesNeededFor s sz).toNat) 0 (startAcc s)

theorem acceptSel_length (s : MMState) (sz : Int) (sh : List Nat)
    (hflen : (s.frames.length : Int) = s.totalFrames)
    (hperm : sh.Perm (availableFrames s))
    (h3 : ¬ (freeFrameCount s : Int) < pagesNeededFor s sz) :
    (sh.take (pagesNeededFor s sz).toNat).length = (pagesNeededFor s sz).toNat := by
  rw [List.length_take, hperm.length_eq, length_availableFrames s hflen]
  have := Int.toNat_le.mpr (not_lt.1 h3)
  omega

theorem pagesNeededFor_nonneg (s : MMState) (sz : Int) (hps : 0 < s.pageSize) (hsz : 0 < sz) :
    0 ≤ pagesNeededFor s sz := by
  apply Int.ediv_nonneg _ (le_of_lt hps)
  omega

/-! ### Counter monotonicity and assignment facts for whole runs -/

theorem removeJob_counters (s : MMState) (jid : Int) :
    (removeJob s jid).1.nextJobId = s.nextJobId ∧
    (removeJob s jid).1.nextPageNumber = s.nextPageNumber := by
  by_cases h1 : jid ≤ 0
  · rw [removeJob_eq_err_nonpos s jid h1]
    exact ⟨rfl, rfl⟩
  rcases hf : s.jobs.find? (fun j => j.id == jid) with _ | job
  · rw [removeJob_eq_err_notFound s jid h1 hf]
    exact ⟨rfl, rfl⟩
  · rw [removeJob_eq_ok s jid job h1 hf]
    exact ⟨rfl, rfl⟩

theorem acceptJob_counters (s : MMState) (nm : String) (sz : Int) (sh : List Nat) :
    s.nextJobId ≤ (acceptJob s nm sz sh).1.nextJobId ∧
    s.nextPageNumber ≤ (acceptJob s nm sz sh).1.nextPageNumber := by
  by_cases h1 : sz ≤ 0
  · rw [acceptJob_eq_err_nonpos s nm sz sh h1]
    exact ⟨le_refl _, le_refl _⟩
  by_cases h2 : MAX_JOB_SIZE < sz
  · rw [acceptJob_eq_err_big s nm sz sh h1 h2]
    exact ⟨le_refl _, le_refl _⟩
  by_cases h3 : (freeFrameCount s : Int) < pagesNeededFor s sz
  · rw [acceptJob_eq_err_frames s nm sz sh h1 h2 h3]
    exact ⟨le_refl _, le_refl _⟩
  rw [acceptJob_eq_ok s nm sz sh h1 h2 h3]
  constructor
  · show s.nextJobId ≤ s.nextJobId + 1
    omega
  · show s.nextPageNumber ≤ (acceptAcc s sz sh).nextPageNumber
    rw [acceptAcc_nextPageNumber]
    omega

theorem stepOp_counters (g : List Nat → List Nat) (s : MMState) (op : Op) :
    s.nextJobId ≤ (stepOp g s op).nextJobId ∧
    s.nextPageNumber ≤ (stepOp g s op).nextPageNumber := by
  cases op with
  | accept nm sz => exact acceptJob_counters s nm sz _
  | remove jid =>
    have h := removeJob_counters s jid
    exact ⟨le_of_eq h.1.symm, le_of_eq h.2.symm⟩

theorem acceptJob_ok_ids (s : MMState) (nm : String) (sz : Int) (sh : List Nat) (r : AcceptOk)
    (hok : (acceptJob s nm sz sh).2 = .ok r) :
    r.jobId = s.nextJobId ∧
    (acceptJob s nm sz sh).1.nextJobId = s.nextJobId + 1 ∧
    r.pageNumbers = pnList s.nextPageNumber (sh.take (pagesNeededFor s sz).toNat).length ∧
    (acceptJob s nm sz sh).1.nextPageNumber =
      s.nextPageNumber + (sh.take (pagesNeededFor s sz).toNat).length := by
  by_cases h1 : sz ≤ 0
  · rw [acceptJob_eq_err_nonpos s nm sz sh h1] at hok
    cases hok
  by_cases h2 : MAX_JOB_SIZE < sz
  · rw [acceptJob_eq_err_big s nm sz sh h1 h2] at hok
    cases hok
  by_cases h3 : (freeFrameCount s : Int) < pagesNeededFor s sz
  · rw [acceptJob_eq_err_frames s nm sz sh h1 h2 h3] at hok
    cases hok
  rw [acceptJob_eq_ok s nm sz sh h1 h2 h3] at hok ⊢
  injection hok with hok
  subst hok
  refine ⟨rfl, rfl, ?_, ?_⟩
  · show (acceptAcc s sz sh).jobPages = _
    exact acceptAcc_jobPages s sz sh
  · show (acceptAcc s sz sh).nextPageNumber = _
    exact acceptAcc_nextPageNumber s sz sh

theorem mem_opJobIds (g : List Nat → List Nat) (s : MMState) (op : Op) (x : Int)
    (hx : x ∈ opJobIds g s op) :
    x = s.nextJobId ∧ (stepOp g s op).nextJobId = s.nextJobId + 1 := by
  cases op with
  | accept nm sz =>
    rw [opJobIds] at hx
    rcases hok : (acceptJob s nm sz (g (availableFrames s))).2 with e | r
    · rw [hok] at hx
      cases hx
    · rw [hok] at hx
      rcases List.mem_singleton.1 hx with rfl
      have h := acceptJob_ok_ids s nm sz _ r hok
      exact ⟨h.1, h.2.1⟩
  | remove jid =>
    rw [opJobIds] at hx
    cases hx

theorem mem_opPageNumbers (g : List Nat → List Nat) (s : MMState) (op : Op) (x : Int)
    (hx : x ∈ opPageNumbers g s op) :
    s.nextPageNumber ≤ x ∧ x < (stepOp g s op).nextPageNumber := by
  cases op with
  | accept nm sz =>
    rw [opPageNumbers] at hx
    rcases hok : (acceptJob s nm sz (g (availableFrames s))).2 with e | r
    · rw [hok] at hx
      cases hx
    · rw [hok] at hx
      have h := acceptJob_ok_ids s nm sz _ r hok
      have hx2 : x ∈ r.pageNumbers := hx
      rw [h.2.2.1] at hx2
      have hb := (mem_pnList _ _ _).1 hx2
      show s.nextPageNumber ≤ x ∧ x < (acceptJob s nm sz (g (availableFrames s))).1.nextPageNumber
      rw [h.2.2.2]
      omega
  | remove jid =>
    rw [opPageNumbers] at hx
    cases hx

theorem pairwise_opPageNumbers (g : List Nat → List Nat) (s : MMState) (op : Op) :
    (opPageNumbers g s op).Pairwise (· < ·) := by
  cases op with
  | accept nm sz =>
    rw [opPageNumbers]
    rcases hok : (acceptJob s nm sz (g (availableFrames s))).2 with e | r
    · exact List.Pairwise.nil
    · have h := acceptJob_ok_ids s nm sz _ r hok
      show r.pageNumbers.Pairwise (· < ·)
      rw [h.2.2.1]
      exact pairwise_lt_pnList _ _
  | remove jid =>
    rw [opPageNumbers]
    exact List.Pairwise.nil

theorem assignedJobIds_lower (g : List Nat → List Nat) (s : MMState) (ops : List Op) :
    ∀ x ∈ assignedJobIds g s ops, s.nextJobId ≤ x := by
  induction ops generalizing s with
  | nil => intro x hx; cases hx
  | cons op ops ih =>
    intro x hx
    rw [assignedJobIds] at hx
    rcases List.mem_append.1 hx with hx | hx
    · exact le_of_eq (mem_opJobIds g s op x hx).1.symm
    · have h1 := ih (stepOp g s op) x hx
      have h2 := (stepOp_counters g s op).1
      omega

theorem assignedPageNumbers_lower (g : List Nat → List Nat) (s : MMState) (ops : List Op) :
    ∀ x ∈ assignedPageNumbers g s ops, s.nextPageNumber ≤ x := by
  induction ops generalizing s with
  | nil => intro x hx; cases hx
  | cons op ops ih =>
    intro x hx
    rw [assignedPageNumbers] at hx
    rcases List.mem_append.1 hx with hx | hx
    · exact (mem_opPageNumbers g s op x hx).1
    · have h1 := ih (stepOp g s op) x hx
      have h2 := (stepOp_counters g s op).2
      omega

/-! ### The claims -/

/-- C1: for every successful `acceptJob(name, sizeBytes)` call, the number
of pages allocated (both the reported count and the length of the new
job's page list) equals `ceil(sizeBytes / pageSize)`, and the reported
internal fragmentation is `0` when `sizeBytes % pageSize == 0` and
`pageSize - (sizeBytes % pageSize)` otherwise. -/
theorem claim_accept_pages_and_fragmentation (s : MMState) (nm : String) (sz : Int)
    (sh : List Nat) (r : AcceptOk) (hWF : WF s) (hperm : sh.Perm (availableFrames s))
    (hok : (acceptJob s nm sz sh).2 = .ok r) :
    r.pagesAllocated = ⌈(sz : ℚ) / (s.pageSize : ℚ)⌉ ∧
    (r.pageNumbers.length : Int) = r.pagesAllocated ∧
    r.fragmentationBytes =
      (if sz % s.pageSize = 0 then (0 : Int) else s.pageSize - sz % s.pageSize) := by
  by_cases h1 : sz ≤ 0
  · rw [acceptJob_eq_err_nonpos s nm sz sh h1] at hok
    cases hok
  by_cases h2 : MAX_JOB_SIZE < sz
  · rw [acceptJob_eq_err_big s nm sz sh h1 h2] at hok
    cases hok
  by_cases h3 : (freeFrameCount s : Int) < pagesNeededFor s sz
  · rw [acceptJob_eq_err_frames s nm sz sh h1 h2 h3] at hok
    cases hok
  rw [acceptJob_eq_ok s nm sz sh h1 h2 h3] at hok
  injection hok with hok
  subst hok
  refine ⟨?_, ?_, ?_⟩
  · show pagesNeededFor s sz = ⌈(sz : ℚ) / (s.pageSize : ℚ)⌉
    rw [ceil_div_eq sz s.pageSize (by omega) hWF.1]
    rfl
  · show ((acceptAcc s sz sh).jobPages.length : Int) = pagesNeededFor s sz
    rw [acceptAcc_jobPages, length_pnList, acceptSel_length s sz sh hWF.2.1 hperm h3,
      Int.toNat_of_nonneg (pagesNeededFor_nonneg s sz hWF.1 (by omega))]
  · show fragmentationFor s sz = _
    rw [fragmentationFor]
    by_cases h : sz % s.pageSize = 0
    · simp [h]
    · simp [h]

/-- C1 witness: accepting a 2048-byte job with page size 1024 allocates
exactly 2 pages with zero fragmentation. -/
theorem claim_accept_pages_and_fragmentation_witness :
    (⟨1, 2, 0, [1, 2]⟩ : AcceptOk).pagesAllocated =
      ⌈((2048 : Int) : ℚ) / (sampleState0.pageSize : ℚ)⌉ ∧
    ((⟨1, 2, 0, [1, 2]⟩ : AcceptOk).pageNumbers.length : Int) =
      (⟨1, 2, 0, [1, 2]⟩ : AcceptOk).pagesAllocated ∧
    (⟨1, 2, 0, [1, 2]⟩ : AcceptOk).fragmentationBytes =
      (if (2048 : Int) % sampleState0.pageSize = 0 then (0 : Int)
       else sampleState0.pageSize - 2048 % sampleState0.pageSize) :=
  claim_accept_pages_and_fragmentation sampleState0 "A" 2048 [0, 1, 2, 3] ⟨1, 2, 0, [1, 2]⟩
    (by decide) (by decide) (by rfl)

/-- C2: `resolveAddress(jobId, logicalAddress)` fails with `InvalidArgument`
for negative addresses, with `NotFound` when no live job has the id, with
`OutOfBounds` when the address is at or past the job's declared size, and
otherwise succeeds returning `pageNumber = logicalAddress / pageSize`,
`offset = logicalAddress % pageSize`, the actual page number from the job's
page list, the frame from the page table, and
`physicalAddress = frameNumber * pageSize + offset`; in particular every
address below `sizeBytes` (including the final partial page) succeeds. -/
theorem claim_resolveAddress_spec (s : MMState) (hWF : WF s) (jobId la : Int) :
    (la < 0 → (resolveAddress s jobId la).2 = .error .invalidArgument) ∧
    (0 ≤ la → s.jobs.find? (fun j => j.id == jobId) = none →
      (resolveAddress s jobId la).2 = .error .notFound) ∧
    (∀ job, 0 ≤ la → s.jobs.find? (fun j => j.id == jobId) = some job →
      (job.size ≤ la → (resolveAddress s jobId la).2 = .error .outOfBounds) ∧
      (la < job.size → ∃ f,
        mapFind s.pageTable (job.pages.getD ((la / s.pageSize).toNat) 0) = some f ∧
        (resolveAddress s jobId la).2 = .ok
          { pageNumber := la / s.pageSize, offset := la % s.pageSize,
            actualPageNumber := job.pages.getD ((la / s.pageSize).toNat) 0,
            frameNumber := f,
            physicalAddress := (f : Int) * s.pageSize + la % s.pageSize })) := by
  obtain ⟨hps, hflen, hidx, hkn, hvn, htf, hft, hlk1, hlk2, hln, hjn, hjp, hpf, hj0⟩ := hWF
  refine ⟨?_, ?_, ?_⟩
  · intro h
    rw [resolveAddress_eq_neg s jobId la h]
  · intro h0 hf
    rw [resolveAddress_eq_notFound s jobId la (not_lt.2 h0) hf]
  · intro job h0 hf
    have hjob : job ∈ s.jobs := List.mem_of_find?_eq_some hf
    obtain ⟨hid0, hidlt, hsz0, hplen⟩ := hjp job hjob
    constructor
    · intro h2
      rw [resolveAddress_eq_oobSize s jobId la job (not_lt.2 h0) hf h2]
    · intro hla
      have hdiv : la / s.pageSize < (job.pages.length : Int) :=
        addr_div_lt la job.size s.pageSize _ hps h0 hla hplen
      have hdiv0 : 0 ≤ la / s.pageSize := Int.ediv_nonneg h0 (le_of_lt hps)
      have hidxlt : (la / s.pageSize).toNat < job.pages.length := by omega
      have hgetmem : job.pages.getD ((la / s.pageSize).toNat) 0 ∈ job.pages := by
        rw [List.getD_eq_getElem?_getD, List.getElem?_eq_getElem hidxlt, Option.getD_some]
        exact List.getElem_mem hidxlt
      have hlive : job.pages.getD ((la / s.pageSize).toNat) 0 ∈ livePages s :=
        (mem_livePages s _).2 ⟨job, hjob, hgetmem⟩
      obtain ⟨f, hfm⟩ := mapFind_isSome_of_mem s.pageTable _ (hlk1 _ hlive)
      refine ⟨f, hfm, ?_⟩
      rw [resolveAddress_eq_ok s jobId la job f (not_lt.2 h0) hf (not_le.2 hla)
        (not_le.2 hdiv) hfm]

/-- C2 witness: in the sample session, address 1025 of the 2048-byte job
resolves through page 1 with offset 1. -/
theorem claim_resolveAddress_spec_witness :
    ((1025 : Int) < 0 → (resolveAddress sampleState1 1 1025).2 = .error .invalidArgument) ∧
    ((0 : Int) ≤ 1025 → sampleState1.jobs.find? (fun j => j.id == 1) = none →
      (resolveAddress sampleState1 1 1025).2 = .error .notFound) ∧
    (∀ job, (0 : Int) ≤ 1025 → sampleState1.jobs.find? (fun j => j.id == 1) = some job →
      (job.size ≤ 1025 → (resolveAddress sampleState1 1 1025).2 = .error .outOfBounds) ∧
      ((1025 : Int) < job.size → ∃ f,
        mapFind sampleState1.pageTable
          (job.pages.getD (((1025 : Int) / sampleState1.pageSize).toNat) 0) = some f ∧
        (resolveAddress sampleState1 1 1025).2 = .ok
          { pageNumber := 1025 / sampleState1.pageSize, offset := 1025 % sampleState1.pageSize,
            actualPageNumber := job.pages.getD (((1025 : Int) / sampleState1.pageSize).toNat) 0,
            frameNumber := f,
            physicalAddress := (f : Int) * sampleState1.pageSize +
              1025 % sampleState1.pageSize })) :=
  claim_resolveAddress_spec sampleState1 (by decide) 1 1025

/-- C3: for every finite sequence of accept/remove calls from a freshly
constructed manager (under any shuffling oracle), after every call the
occupied frames and the live pages correspond one-to-one through the page
table and the occupied-frame count equals the sum of the live jobs' page
counts. -/
theorem claim_invariant_all_runs (g : List Nat → List Nat) (hg : ∀ l, (g l).Perm l)
    (ps tf : Int) (s0 : MMState) (hinit : initManager ps tf = some s0) (ops : List Op) :
    InvariantOk (runOps g s0 ops) :=
  InvariantOk_of_WF _ (WF_runOps g hg s0 ops (WF_initManager ps tf s0 hinit))

/-- C3 witness: the invariant holds concretely after an accept followed by
a remove in the sample session. -/
theorem claim_invariant_all_runs_witness :
    InvariantOk (runOps id sampleState0 [Op.accept "A" 2048, Op.remove 1]) :=
  claim_invariant_all_runs id (fun l => List.Perm.refl l) 1024 4 sampleState0 (by rfl)
    [Op.accept "A" 2048, Op.remove 1]

/-- C4: whenever `acceptJob`, `resolveAddress`, or `removeJob` returns a
user-facing error, the entire shared state (frames, pages, jobs, page
table, and both id counters) is exactly as it was before the call. -/
theorem claim_errors_leave_state_unchanged (s : MMState) (nm : String) (sz : Int)
    (sh : List Nat) (jid la rid : Int)
    (e1 : AcceptError) (e2 : ResolveError) (e3 : RemoveError) :
    ((acceptJob s nm sz sh).2 = .error e1 → (acceptJob s nm sz sh).1 = s) ∧
    ((resolveAddress s jid la).2 = .error e2 → (resolveAddress s jid la).1 = s) ∧
    ((removeJob s rid).2 = .error e3 → (removeJob s rid).1 = s) := by
  refine ⟨?_, fun _ => resolveAddress_fst s jid la, ?_⟩
  · intro he
    by_cases h1 : sz ≤ 0
    · rw [acceptJob_eq_err_nonpos s nm sz sh h1]
    by_cases h2 : MAX_JOB_SIZE < sz
    · rw [acceptJob_eq_err_big s nm sz sh h1 h2]
    by_cases h3 : (freeFrameCount s : Int) < pagesNeededFor s sz
    · rw [acceptJob_eq_err_frames s nm sz sh h1 h2 h3]
    · rw [acceptJob_eq_ok s nm sz sh h1 h2 h3] at he
      cases he
  · intro he
    by_cases h1 : rid ≤ 0
    · rw [removeJob_eq_err_nonpos s rid h1]
    rcases hf : s.jobs.find? (fun j => j.id == rid) with _ | job
    · rw [removeJob_eq_err_notFound s rid h1 hf]
    · rw [removeJob_eq_ok s rid job h1 hf] at he
      cases he

/-- C4 witness: three concrete failing calls leave the sample state
untouched. -/
theorem claim_errors_leave_state_unchanged_witness :
    (acceptJob sampleState0 "B" 0 []).1 = sampleState0 ∧
    (resolveAddress sampleState0 5 0).1 = sampleState0 ∧
    (removeJob sampleState0 7).1 = sampleState0 := by
  obtain ⟨h1, h2, h3⟩ := claim_errors_leave_state_unchanged sampleState0 "B" 0 [] 5 0 7
    AcceptError.invalidArgument ResolveError.notFound RemoveError.notFound
  exact ⟨h1 (by rfl), h2 (by rfl), h3 (by rfl)⟩

/-- C5: `acceptJob` fails with `InvalidArgument` exactly when the size is
non-positive or above 100 MiB; for in-range sizes it fails with
`InsufficientFrames` exactly when fewer frames are free than
`ceil(sizeBytes / pageSize)`; otherwise it succeeds. -/
theorem claim_accept_error_conditions (s : MMState) (nm : String) (sz : Int) (sh : List Nat) :
    ((acceptJob s nm sz sh).2 = .error .invalidArgument ↔ (sz ≤ 0 ∨ 104857600 < sz)) ∧
    (0 < sz → sz ≤ 104857600 →
      ((acceptJob s nm sz sh).2 = .error .insufficientFrames ↔
        (freeFrameCount s : Int) < (sz + s.pageSize - 1) / s.pageSize)) ∧
    (0 < sz → sz ≤ 104857600 →
      ¬ (freeFrameCount s : Int) < (sz + s.pageSize - 1) / s.pageSize →
      ∃ r, (acceptJob s nm sz sh).2 = .ok r) := by
  have hmax : MAX_JOB_SIZE = 104857600 := by norm_num [MAX_JOB_SIZE]
  by_cases h1 : sz ≤ 0
  · rw [acceptJob_eq_err_nonpos s nm sz sh h1]
    refine ⟨⟨(fun _ => Or.inl h1), (fun _ => rfl)⟩, (fun h => by omega), (fun h => by omega)⟩
  by_cases h2 : MAX_JOB_SIZE < sz
  · rw [acceptJob_eq_err_big s nm sz sh h1 h2]
    rw [hmax] at h2
    refine ⟨⟨(fun _ => Or.inr h2), (fun _ => rfl)⟩, ?_, ?_⟩
    · intro _ hle
      omega
    · intro _ hle
      omega
  by_cases h3 : (freeFrameCount s : Int) < pagesNeededFor s sz
  · rw [acceptJob_eq_err_frames s nm sz sh h1 h2 h3]
    have h3b : (freeFrameCount s : Int) < (sz + s.pageSize - 1) / s.pageSize := h3
    rw [hmax] at h2
    refine ⟨⟨(fun h => by cases h), (fun h => by rcases h with h | h <;> omega)⟩, ?_, ?_⟩
    · intro _ _
      exact ⟨(fun _ => h3b), (fun _ => rfl)⟩
    · intro _ _ hcon
      exact absurd h3b hcon
  · rw [acceptJob_eq_ok s nm sz sh h1 h2 h3]
    rw [hmax] at h2
    have h3b : ¬ (freeFrameCount s : Int) < (sz + s.pageSize - 1) / s.pageSize := h3
    refine ⟨⟨(fun h => by cases h), (fun h => by rcases h with h | h <;> omega)⟩, ?_, ?_⟩
    · intro _ _
      exact ⟨(fun h => by cases h), (fun hcon => absurd hcon h3b)⟩
    · intro _ _ _
      exact ⟨_, rfl⟩

/-- C5 witness: a negative size is rejected, a too-large request hits
`InsufficientFrames`, and an in-range request with enough frames
succeeds. -/
theorem claim_accept_error_conditions_witness :
    (acceptJob sampleState0 "B" (-3) [0, 1, 2, 3]).2 = .error .invalidArgument ∧
    (acceptJob sampleState1 "B" 4096 [2, 3]).2 = .error .insufficientFrames ∧
    (∃ r, (acceptJob sampleState1 "B" 2048 [2, 3]).2 = .ok r) := by
  refine ⟨?_, ?_, ?_⟩
  · exact (claim_accept_error_conditions sampleState0 "B" (-3) [0, 1, 2, 3]).1.mpr
      (Or.inl (by norm_num))
  · exact ((claim_accept_error_conditions sampleState1 "B" 4096 [2, 3]).2.1 (by norm_num)
      (by norm_num)).mpr (by decide)
  · exact (claim_accept_error_conditions sampleState1 "B" 2048 [2, 3]).2.2 (by norm_num)
      (by norm_num) (by decide)

/-- C6: `removeJob(jobId)` fails with `InvalidArgument` for non-positive
ids and with `NotFound` for unknown ids; otherwise it succeeds and the
reported frames-freed count equals the number of frames actually freed by
the loop (the job's page numbers found in the page table and cleared). -/
theorem claim_removeJob_spec (s : MMState) (hWF : WF s) (jid : Int) :
    (jid ≤ 0 → (removeJob s jid).2 = .error .invalidArgument) ∧
    (¬ jid ≤ 0 → s.jobs.find? (fun j => j.id == jid) = none →
      (removeJob s jid).2 = .error .notFound) ∧
    (∀ job, ¬ jid ≤ 0 → s.jobs.find? (fun j => j.id == jid) = some job →
      (removeJob s jid).2 = .ok (actualFramesFreed s job) ∧
      actualFramesFreed s job = job.pages.length) := by
  obtain ⟨hps, hflen, hidx, hkn, hvn, htf, hft, hlk1, hlk2, hln, hjn, hjp, hpf, hj0⟩ := hWF
  refine ⟨?_, ?_, ?_⟩
  · intro h
    rw [removeJob_eq_err_nonpos s jid h]
  · intro h1 hf
    rw [removeJob_eq_err_notFound s jid h1 hf]
  · intro job h1 hf
    have hjmem : job ∈ s.jobs := List.mem_of_find?_eq_some hf
    have hjpN : job.pages.Nodup :=
      (List.sublist_flatten_of_mem (List.mem_map_of_mem Job.pages hjmem)).nodup hln
    have hjpK : ∀ pn ∈ job.pages, pn ∈ tableKeys s.pageTable := fun pn hpn =>
      hlk1 pn ((mem_livePages s pn).2 ⟨job, hjmem, hpn⟩)
    obtain ⟨_, hfreed, _, _⟩ :=
      freeLoop_spec job.pages { frames := s.frames, pageTable := s.pageTable, freed := 0 }
        hkn hvn hjpN hjpK
    have hact : actualFramesFreed s job = job.pages.length := by
      have h0 : (freeLoop job.pages
          { frames := s.frames, pageTable := s.pageTable, freed := 0 }).freed =
          0 + job.pages.length := hfreed
      rw [actualFramesFreed, h0]
      omega
    exact ⟨by rw [removeJob_eq_ok s jid job h1 hf, hact], hact⟩

/-- C6 witness: in the sample session, removing the only job frees exactly
its two frames, and the failing cases error as described. -/
theorem claim_removeJob_spec_witness :
    (removeJob sampleState1 0).2 = .error .invalidArgument ∧
    (removeJob sampleState1 9).2 = .error .notFound ∧
    (removeJob sampleState1 1).2 = .ok (actualFramesFreed sampleState1 ⟨1, "A", 2048, [1, 2]⟩) ∧
    actualFramesFreed sampleState1 ⟨1, "A", 2048, [1, 2]⟩ = 2 := by
  have hA := (claim_removeJob_spec sampleState1 (by decide) 0).1 (by norm_num)
  have hB := (claim_removeJob_spec sampleState1 (by decide) 9).2.1 (by norm_num) (by rfl)
  have hC := (claim_removeJob_spec sampleState1 (by decide) 1).2.2 ⟨1, "A", 2048, [1, 2]⟩
    (by norm_num) (by rfl)
  exact ⟨hA, hB, hC.1, hC.2⟩

/-- C7: within one session job ids and page numbers are never reused: the
sequence of job ids assigned by successive successful accepts is strictly
increasing, and so is the sequence of all page numbers assigned, even
across removals. -/
theorem claim_ids_and_pages_never_reused (g : List Nat → List Nat) (s : MMState)
    (ops : List Op) :
    (assignedJobIds g s ops).Pairwise (· < ·) ∧
    (assignedPageNumbers g s ops).Pairwise (· < ·) := by
  induction ops generalizing s with
  | nil => exact ⟨List.Pairwise.nil, List.Pairwise.nil⟩
  | cons op ops ih =>
    constructor
    · rw [assignedJobIds, List.pairwise_append]
      refine ⟨?_, (ih (stepOp g s op)).1, ?_⟩
      · cases op with
        | accept nm sz =>
          rw [opJobIds]
          rcases hok : (acceptJob s nm sz (g (availableFrames s))).2 with e | r
          · exact List.Pairwise.nil
          · exact List.pairwise_singleton _ _
        | remove jid => exact List.Pairwise.nil
      · intro a ha b hb
        have h1 := mem_opJobIds g s op a ha
        have h2 := assignedJobIds_lower g (stepOp g s op) ops b hb
        omega
    · rw [assignedPageNumbers, List.pairwise_append]
      refine ⟨pairwise_opPageNumbers g s op, (ih (stepOp g s op)).2, ?_⟩
      intro a ha b hb
      have h1 := mem_opPageNumbers g s op a ha
      have h2 := assignedPageNumbers_lower g (stepOp g s op) ops b hb
      omega

/-- C8: `resolveAddress` is read-only: whether it succeeds or fails it
returns the state it was given, unchanged. -/
theorem claim_resolveAddress_readonly (s : MMState) (jid la : Int) :
    (resolveAddress s jid la).1 = s :=
  resolveAddress_fst s jid la

/-- C9: `resolveAddress` performs no positivity check on the job id: for a
non-positive id (and any non-negative address) the lookup finds no job and
the call fails with `NotFound`, not `InvalidArgument`. -/
theorem claim_resolve_nonpositive_id_notFound (s : MMState) (hWF : WF s) (jid la : Int)
    (hj : jid ≤ 0) (hla : 0 ≤ la) :
    (resolveAddress s jid la).2 = .error .notFound := by
  obtain ⟨hps, hflen, hidx, hkn, hvn, htf, hft, hlk1, hlk2, hln, hjn, hjp, hpf, hj0⟩ := hWF
  have hfind : s.jobs.find? (fun j => j.id == jid) = none := by
    rw [List.find?_eq_none]
    intro j hjm
    simp only [beq_iff_eq]
    intro heq
    have := (hjp j hjm).1
    omega
  rw [resolveAddress_eq_notFound s jid la (not_lt.2 hla) hfind]

/-- C9 witness: a negative job id yields `NotFound` in the sample
session. -/
theorem claim_resolve_nonpositive_id_notFound_witness :
    (resolveAddress sampleState1 (-2) 0).2 = .error .notFound :=
  claim_resolve_nonpositive_id_notFound sampleState1 (by decide) (-2) 0
    (by norm_num) (by norm_num)

/-- C10: `acceptJob` never inspects the job name: for every name
(including the empty string) success is decided only by the size bounds
and the free-frame count, and the name is stored verbatim in the new job
record. -/
theorem claim_accept_name_irrelevant (s : MMState) (nm : String) (sz : Int) (sh : List Nat) :
    ((∃ r, (acceptJob s nm sz sh).2 = .ok r) ↔
      (0 < sz ∧ sz ≤ MAX_JOB_SIZE ∧ pagesNeededFor s sz ≤ (freeFrameCount s : Int))) ∧
    (∀ r, (acceptJob s nm sz sh).2 = .ok r →
      (acceptJob s nm sz sh).1.jobs =
        s.jobs ++ [{ id := r.jobId, name := nm, size := sz, pages := r.pageNumbers }]) := by
  by_cases h1 : sz ≤ 0
  · rw [acceptJob_eq_err_nonpos s nm sz sh h1]
    refine ⟨⟨?_, ?_⟩, ?_⟩
    · rintro ⟨r, hr⟩
      cases hr
    · rintro ⟨h, _⟩
      omega
    · intro r hr
      cases hr
  by_cases h2 : MAX_JOB_SIZE < sz
  · rw [acceptJob_eq_err_big s nm sz sh h1 h2]
    refine ⟨⟨?_, ?_⟩, ?_⟩
    · rintro ⟨r, hr⟩
      cases hr
    · rintro ⟨_, hle, _⟩
      omega
    · intro r hr
      cases hr
  by_cases h3 : (freeFrameCount s : Int) < pagesNeededFor s sz
  · rw [acceptJob_eq_err_frames s nm sz sh h1 h2 h3]
    refine ⟨⟨?_, ?_⟩, ?_⟩
    · rintro ⟨r, hr⟩
      cases hr
    · rintro ⟨_, _, hge⟩
      omega
    · intro r hr
      cases hr
  · rw [acceptJob_eq_ok s nm sz sh h1 h2 h3]
    refine ⟨⟨?_, ?_⟩, ?_⟩
    · intro _
      exact ⟨by omega, not_lt.1 h2, not_lt.1 h3⟩
    · intro _
      exact ⟨_, rfl⟩
    · intro r hr
      injection hr with hr
      subst hr
      rfl

/-- C10 witness: a job with the empty name is accepted in the sample
session and the empty name is stored verbatim. -/
theorem claim_accept_name_irrelevant_witness :
    ((∃ r, (acceptJob sampleState0 "" 2048 [3, 2, 1, 0]).2 = .ok r) ↔
      (0 < (2048 : Int) ∧ (2048 : Int) ≤ MAX_JOB_SIZE ∧
        pagesNeededFor sampleState0 2048 ≤ (freeFrameCount sampleState0 : Int))) ∧
    (∀ r, (acceptJob sampleState0 "" 2048 [3, 2, 1, 0]).2 = .ok r →
      (acceptJob sampleState0 "" 2048 [3, 2, 1, 0]).1.jobs =
        sampleState0.jobs ++ [{ id := r.jobId, name := "", size := 2048, pages := r.pageNumbers }]) :=
  claim_accept_name_irrelevant sampleState0 "" 2048 [3, 2, 1, 0]

end PagedSim
